import Mathlib

/-!
Verification development for the filediff GitHub action (`src/index.ts`).

The program computes per-file size/gzip/brotli statistics for two git
branches, reconciles the two file sets into an added/removed/modified
diff and renders a pull-request comment.  This file gives a shallow
embedding of the pure core of that program: the data model
(`FileMetric`, `BranchStats`), the relative-path key computation, the
build-script splitting and execution order, the common-prefix
computation, the report renderer and the orchestrator's control flow.
External collaborators (filesystem, git, compression, the comment API)
are passed in as explicit data or oracles, matching the specification's
out-of-scope list.
-/

/-- Byte metrics for one file: uncompressed size, gzip size, brotli size.
Embeds the value type of the `files` map of `BranchStats` in `src/index.ts`. -/
structure FileMetric where
  size : Nat
  gzip : Nat
  brotli : Nat
deriving DecidableEq

/-- `BranchStats` from `src/index.ts`: running totals plus the per-file map.
The JS object `files` is modelled as an insertion-ordered association list;
JS objects with non-index string keys enumerate in insertion order. -/
structure BranchStats where
  totalSize : Nat
  totalGzip : Nat
  totalBrotli : Nat
  files : List (String × FileMetric)
deriving DecidableEq

/-- The fixed marker placed at the start of every comment the action creates
(`const commentHash = '<!-- @alex-page was here -->'`). -/
def commentHash : String := "<!-- @alex-page was here -->"

/-- JS property read `files[k]`: the value stored under key `k`, if present.
On an insertion-ordered association list with unique keys this is the first
(and only) binding. -/
def getFile (files : List (String × FileMetric)) (k : String) : Option FileMetric :=
  (files.find? (fun e => e.1 == k)).map (fun e => e.2)

/-- `Object.keys`: the keys of the files map in insertion order. -/
def keysOf (files : List (String × FileMetric)) : List String :=
  files.map (fun e => e.1)

/-- JS property write `files[k] = v`: updates the value in place when the key
exists (JS keeps the original insertion position), otherwise appends. -/
def objSet (files : List (String × FileMetric)) (k : String) (v : FileMetric) :
    List (String × FileMetric) :=
  if files.any (fun e => e.1 == k) then
    files.map (fun e => if e.1 == k then (k, v) else e)
  else
    files ++ [(k, v)]

/-! ### JS string primitives

The TypeScript code works on strings via `split`, `slice`, `trim`,
`startsWith` and `lastIndexOf`.  They are modelled on `List Char`
(the paths involved are ASCII, where JS UTF-16 indices and characters
coincide). -/

/-- Index of the first occurrence of the (non-empty) separator `sep` in `s`,
scanning left to right, as used by JS `String.prototype.split`. -/
def findSep (sep : List Char) : List Char → Option Nat
  | [] => if sep = [] then some 0 else none
  | c :: cs =>
    if sep.isPrefixOf (c :: cs) then some 0
    else (findSep sep cs).map (fun i => i + 1)

/-- `sep` occurs in `s` at index `i`. -/
def occursAt (sep s : List Char) (i : Nat) : Prop :=
  sep.isPrefixOf (s.drop i) = true

instance (sep s : List Char) (i : Nat) : Decidable (occursAt sep s i) := by
  unfold occursAt; infer_instance

/-- `s.split(sep).slice(1)[0]` for a non-empty `sep`: the segment of `s`
strictly between the first occurrence of `sep` and the next (non-overlapping)
occurrence; the whole remainder when `sep` occurs exactly once; `none`
(JS `undefined`) when `sep` does not occur at all.  This is the relative-path
computation `file.split(branch + "/").slice(1)[0]` of `getFileStats`. -/
def relKey (sep s : List Char) : Option (List Char) :=
  match findSep sep s with
  | none => none
  | some i =>
    let rest := s.drop (i + sep.length)
    match findSep sep rest with
    | none => some rest
    | some j => some (rest.take j)

/-- The key under which `getFileStats` stores a file:
`file.split(branch + "/").slice(1)[0]`.  When the separator does not occur the
JS expression is `undefined`, which, used as an object key, coerces to the
string `"undefined"`. -/
def relativeKeyStr (branch file : String) : String :=
  match relKey (branch.data ++ ['/']) file.data with
  | some cs => ⟨cs⟩
  | none => "undefined"

/-- JS whitespace test for the characters relevant to `trim` and `\s`
(ASCII whitespace; the action's build scripts are ASCII). -/
def isWs (c : Char) : Bool :=
  c = ' ' ∨ c = '\t' ∨ c = '\n' ∨ c = '\r' ∨ c = '\x0b' ∨ c = '\x0c'

/-- JS `String.prototype.trim`: strip whitespace from both ends. -/
def trimStr (s : String) : String :=
  ⟨((s.data.dropWhile isWs).reverse.dropWhile isWs).reverse⟩

/-- JS `s.slice(n)` (drop the first `n` characters). -/
def sliceFrom (s : String) (n : Nat) : String :=
  ⟨s.data.drop n⟩

/-- JS `s.startsWith(pre)`. -/
def jsStartsWith (s pre : String) : Bool :=
  pre.data.isPrefixOf s.data

/-- Maximal runs of non-whitespace characters, in order (helper for the
`split(/\s+/)` tokenizer). -/
def wsFields : List Char → List Char → List (List Char)
  | [], acc => if acc = [] then [] else [acc.reverse]
  | c :: cs, acc =>
    if isWs c then
      if acc = [] then wsFields cs [] else acc.reverse :: wsFields cs []
    else wsFields cs (c :: acc)

/-- JS `s.split(/\s+/)` restricted to the trimmed strings it is applied to in
`getBranchStats`: on the empty string JS yields `[""]`; on a string with no
leading/trailing whitespace it yields the maximal non-whitespace runs. -/
def tokenizeWs (s : String) : List String :=
  match wsFields s.data [] with
  | [] => [""]
  | fs => fs.map (fun cs => (⟨cs⟩ : String))

/-- `Array.prototype.join(sep)`. -/
def joinSep (sep : String) : List String → String
  | [] => ""
  | [s] => s
  | s :: rest => s ++ sep ++ joinSep sep rest

/-! ### Model of the `pretty-bytes` library

`pretty-bytes` is an external trusted primitive (spec §1).  For values below
1000 it renders the exact integer followed by `" B"`; with `{signed: true}`
it prepends the sign and renders `0` as `" 0 B"`.  Above 1000 it divides by a
power of 1000 and keeps three significant digits; the rounding below models
the library's documented behaviour with half-up integer rounding (every value
this development evaluates concretely is below 1000, where the model is
exact). -/

def byteUnits : List String := ["B", "kB", "MB", "GB", "TB", "PB", "EB", "ZB", "YB"]

/-- Left-pad a digit string with zeros to width `w`. -/
def padZeros (w : Nat) (cs : List Char) : List Char :=
  List.replicate (w - cs.length) '0' ++ cs

/-- Strip trailing zeros (of a fractional part). -/
def stripTrailingZeros (cs : List Char) : List Char :=
  (cs.reverse.dropWhile (fun c => c = '0')).reverse

/-- `prettyBytes(n)` for a non-negative integer number of bytes. -/
def prettyBytesNat (n : Nat) : String :=
  if n < 1000 then toString n ++ " B"
  else
    let e := min (Nat.log 10 n / 3) (byteUnits.length - 1)
    let m := 1000 ^ e
    let intDigits := Nat.log 10 (n / m) + 1
    let decs := 3 - min intDigits 3
    let scaled := (n * 10 ^ decs + m / 2) / m
    let unit := byteUnits.getD e "B"
    let ip := scaled / 10 ^ decs
    let fp := scaled % 10 ^ decs
    if decs = 0 then toString ip ++ " " ++ unit
    else
      let frac := stripTrailingZeros (padZeros decs (toString fp).data)
      if frac = [] then toString ip ++ " " ++ unit
      else toString ip ++ "." ++ (⟨frac⟩ : String) ++ " " ++ unit

/-- `prettyBytes(i, {signed: true})`: `" 0 B"` at zero, otherwise the
magnitude rendering prefixed with an explicit sign. -/
def prettyBytesSigned (i : Int) : String :=
  if i = 0 then " 0 B"
  else if i < 0 then "-" ++ prettyBytesNat i.natAbs
  else "+" ++ prettyBytesNat i.natAbs

/-- `getDiff(a, b) = prettyBytes(a - b, {signed: true})` from `getStatComment`. -/
def getDiff (a b : Nat) : String :=
  prettyBytesSigned ((a : Int) - (b : Int))

/-! ### Common display prefix (`getCommonStringStart`) -/

/-- JS default-comparator string order: lexicographic comparison of the
code-unit sequences (for the ASCII paths at hand, of the characters). -/
def lexLe : List Char → List Char → Bool
  | [], _ => true
  | _ :: _, [] => false
  | a :: as, b :: bs => if a < b then true else if b < a then false else lexLe as bs

/-- Longest common leading run of two character lists; this is what the
index-scanning loop of `getCommonStringStart` returns for the sorted
extremes `first`/`last` (the loop stops at the first index where the
characters differ or `last` is exhausted, and returns all of `first` when it
never stops). -/
def commonRun : List Char → List Char → List Char
  | a :: as, b :: bs => if a = b then a :: commonRun as bs else []
  | _, _ => []

/-- The order `getCommonStringStart` sorts with (`strings.slice().sort()`). -/
def strLe (a b : String) : Prop := lexLe a.data b.data = true

instance : DecidableRel strLe := by
  unfold strLe; infer_instance

/-- `getCommonStringStart` from `src/index.ts`: under two strings the result
is `""`; otherwise sort a copy, take the lexicographic extremes and return
their common leading run.  JS `Array.prototype.sort` with the default
comparator produces the unique `lexLe`-sorted permutation (the comparator is
a total order), so any sorting algorithm gives the same list; insertion sort
is used here to keep the definition structurally recursive. -/
def getCommonStringStart (strings : List String) : String :=
  if strings.length < 2 then ""
  else
    let sorted := strings.insertionSort strLe
    let first := sorted.headD ""
    let last := sorted.getLastD ""
    ⟨commonRun first.data last.data⟩

/-- `commonStart.slice(0, commonStart.lastIndexOf('/') + 1)`: the leading part
of `s` up to and including the last `'/'`, empty when `s` has no `'/'`. -/
def truncToLastSlash (s : String) : String :=
  ⟨(s.data.reverse.dropWhile (fun c => c ≠ '/')).reverse⟩

/-- The `commonFilePath` the renderer displays and strips from every row. -/
def commonFilePathOf (paths : List String) : String :=
  truncToLastSlash (getCommonStringStart paths)

/-! ### Diff reconciliation and rendering (`getStatComment`, `run`) -/

/-- The union of the two key sets, in JS `Set` insertion order
(`new Set([...Object.keys(prStats.files), ...Object.keys(targetStats.files)])`):
PR keys first, then the target keys not already present. -/
def unionPaths (pr target : List (String × FileMetric)) : List String :=
  keysOf pr ++ (keysOf target).filter (fun k => decide (k ∉ keysOf pr))

/-- The classification the orchestrator's `fileChanges` block and the
renderer's row loops perform for one union path: absent from target → added;
absent from PR → removed; sizes differ → modified; otherwise unchanged
(emitted nowhere). -/
inductive FileChange where
  | added
  | removed
  | modified
  | unchanged
deriving DecidableEq

/-- Classify one path against the two stats objects (`run`, the
`allFilePaths.forEach` block). -/
def classify (pr target : List (String × FileMetric)) (p : String) : FileChange :=
  match getFile target p, getFile pr p with
  | none, _ => .added
  | some _, none => .removed
  | some tm, some pm => if pm.size ≠ tm.size then .modified else .unchanged

/-- Row for an added file (PR entry absent from target). -/
def rowAdded (cp p : String) (m : FileMetric) : String :=
  "| <sub>" ++ sliceFrom p cp.length ++ "</sub> | <sub>" ++ prettyBytesNat m.size ++
    " `" ++ prettyBytesSigned (m.size : Int) ++ "`</sub> | <sub>" ++ prettyBytesNat m.gzip ++
    " `" ++ prettyBytesSigned (m.gzip : Int) ++ "`</sub> | <sub>" ++ prettyBytesNat m.brotli ++
    " `" ++ prettyBytesSigned (m.brotli : Int) ++ "`</sub> |"

/-- Row for a changed file (present in both, sizes differ). -/
def rowChanged (cp p : String) (m tm : FileMetric) : String :=
  "| <sub>" ++ sliceFrom p cp.length ++ "</sub> | <sub>" ++ prettyBytesNat m.size ++
    " `" ++ getDiff m.size tm.size ++ "`</sub> | <sub>" ++ prettyBytesNat m.gzip ++
    " `" ++ getDiff m.gzip tm.gzip ++ "`</sub> | <sub>" ++ prettyBytesNat m.brotli ++
    " `" ++ getDiff m.brotli tm.brotli ++ "`</sub> |"

/-- Row for a removed file (target entry absent from PR): struck-through name,
`0 B` current values, `prettyBytes(-1 * metric, {signed: true})` deltas. -/
def rowRemoved (cp p : String) (m : FileMetric) : String :=
  "| <sub>~" ++ sliceFrom p cp.length ++ "~</sub> | <sub>0 B `" ++
    prettyBytesSigned (-(m.size : Int)) ++ "`</sub> | <sub>0 B `" ++
    prettyBytesSigned (-(m.gzip : Int)) ++ "`</sub> | <sub>0 B `" ++
    prettyBytesSigned (-(m.brotli : Int)) ++ "`</sub> |"

/-- The rows of the per-file table paired with the union path each row came
from: the PR-entry loop pushes an added or changed row (or nothing, for an
unchanged file) in PR insertion order, then the target-entry loop pushes the
removed rows in target insertion order.  The path component is bookkeeping
for the proofs; the strings are the pushed rows. -/
def rowsWithKeys (cp : String) (pr target : List (String × FileMetric)) :
    List (String × String) :=
  pr.filterMap (fun e =>
    match getFile target e.1 with
    | none => some (e.1, rowAdded cp e.1 e.2)
    | some tm => if e.2.size ≠ tm.size then some (e.1, rowChanged cp e.1 e.2 tm) else none) ++
  target.filterMap (fun e =>
    if getFile pr e.1 = none then some (e.1, rowRemoved cp e.1 e.2) else none)

/-- `fileColumns`: the rendered rows, in push order. -/
def fileColumns (cp : String) (pr target : List (String × FileMetric)) : List String :=
  (rowsWithKeys cp pr target).map (fun r => r.2)

/-- Entries of the PR map classified added (`fileTotals.added` counts these). -/
def addedEntries (pr target : List (String × FileMetric)) : List (String × FileMetric) :=
  pr.filter (fun e => (getFile target e.1).isNone)

/-- Entries of the PR map classified changed (`fileTotals.changed`). -/
def changedEntries (pr target : List (String × FileMetric)) : List (String × FileMetric) :=
  pr.filter (fun e =>
    match getFile target e.1 with
    | none => false
    | some tm => e.2.size != tm.size)

/-- Entries of the PR map present in target with identical size (emitted
nowhere by the renderer). -/
def unchangedEntries (pr target : List (String × FileMetric)) : List (String × FileMetric) :=
  pr.filter (fun e =>
    match getFile target e.1 with
    | none => false
    | some tm => e.2.size == tm.size)

/-- Entries of the target map classified removed (`fileTotals.removed`). -/
def removedEntries (pr target : List (String × FileMetric)) : List (String × FileMetric) :=
  target.filter (fun e => (getFile pr e.1).isNone)

def countAdded (pr target : List (String × FileMetric)) : Nat :=
  (addedEntries pr target).length

def countChanged (pr target : List (String × FileMetric)) : Nat :=
  (changedEntries pr target).length

def countRemoved (pr target : List (String × FileMetric)) : Nat :=
  (removedEntries pr target).length

/-- `pluralize` from `getStatComment`. -/
def pluralize (count : Nat) (single plural : String) : String :=
  if count = 1 then single else plural

/-- The visible `<summary>` text: the non-zero counts with pluralized nouns,
pushed in the order changed, added, removed, joined with `', '`. -/
def detailsSummaryText (pr target : List (String × FileMetric)) : String :=
  let fc := countChanged pr target
  let fa := countAdded pr target
  let fr := countRemoved pr target
  joinSep ", "
    ((if fc ≠ 0 then [toString fc ++ " " ++ pluralize fc "file changed" "files changed"] else []) ++
     (if fa ≠ 0 then [toString fa ++ " " ++ pluralize fa "file added" "files added"] else []) ++
     (if fr ≠ 0 then [toString fr ++ " " ++ pluralize fr "file removed" "files removed"] else []))

/-- `<details${fileDetailsOpen ? ' open' : ''}>`'s attribute fragment. -/
def detailsOpenAttr (fileDetailsOpen : Bool) : String :=
  if fileDetailsOpen then " open" else ""

/-- `getStatComment` from `src/index.ts`: the full rendered comment body. -/
def getStatComment (targetStats prStats : BranchStats) (fileDetailsOpen : Bool) : String :=
  let totalDiffSize := getDiff prStats.totalSize targetStats.totalSize
  let totalDiffGzip := getDiff prStats.totalGzip targetStats.totalGzip
  let totalDiffBrotli := getDiff prStats.totalBrotli targetStats.totalBrotli
  let allFilePaths := unionPaths prStats.files targetStats.files
  let commonFilePath := commonFilePathOf allFilePaths
  let cols := fileColumns commonFilePath prStats.files targetStats.files
  let summary := detailsSummaryText prStats.files targetStats.files
  commentHash ++ "\n<sub>**[[filediff]](https://github.com/shopify/filediff)** The total bytes " ++
    (if jsStartsWith totalDiffSize "+" then "added" else "removed") ++ " are:</sub>\n" ++
    "  | uncompressed | gzip | brotli |\n" ++
    "  |:--- |:--- |:--- |\n" ++
    "  | <sub>" ++ prettyBytesNat prStats.totalSize ++ " `" ++ totalDiffSize ++
    "`</sub> | <sub>" ++ prettyBytesNat prStats.totalGzip ++ " `" ++ totalDiffGzip ++
    "`</sub> | <sub>" ++ prettyBytesNat prStats.totalBrotli ++ " `" ++ totalDiffBrotli ++
    "`</sub> |\n\n\n" ++
    "  <details" ++ detailsOpenAttr fileDetailsOpen ++ ">\n" ++
    "    <summary><sub>" ++ summary ++ "</sub></summary>\n\n" ++
    (if commonFilePath ≠ "" then "<sub>All changed files are in " ++ commonFilePath ++ "</sub>" else "") ++
    "\n\n| Filename | size  | gzip | brotli |\n|:--- | ---:| ---:| ---:|\n" ++
    joinSep "\n" cols ++ "\n  </details>\n  "

/-! ### File stat collection (`getFileStats`, `getBranchStats`) -/

/-- The empty accumulator `getBranchStats` starts from. -/
def emptyBranchStats : BranchStats :=
  { totalSize := 0, totalGzip := 0, totalBrotli := 0, files := [] }

/-- `getFileStats` from `src/index.ts`, for one file: add the file's metrics
to the three totals and store them under the relative key.  The filesystem
stat and the two compressions are external primitives, passed in as the
oracle `metricOf` from absolute path to metrics. -/
def getFileStats (branch : String) (metricOf : String → FileMetric)
    (file : String) (bs : BranchStats) : BranchStats :=
  let m := metricOf file
  { totalSize := bs.totalSize + m.size
    totalGzip := bs.totalGzip + m.gzip
    totalBrotli := bs.totalBrotli + m.brotli
    files := objSet bs.files (relativeKeyStr branch file) m }

/-- The collection phase of `getBranchStats`: fold `getFileStats` over the
globbed file list starting from the empty accumulator.  (The additive totals
are order-independent; the map write order only matters when two files
collide on one key.) -/
def collectBranchStats (branch : String) (metricOf : String → FileMetric)
    (files : List String) : BranchStats :=
  files.foldl (fun bs f => getFileStats branch metricOf f bs) emptyBranchStats

def sumSizes (files : List (String × FileMetric)) : Nat :=
  (files.map (fun e => e.2.size)).sum

def sumGzips (files : List (String × FileMetric)) : Nat :=
  (files.map (fun e => e.2.gzip)).sum

def sumBrotlis (files : List (String × FileMetric)) : Nat :=
  (files.map (fun e => e.2.brotli)).sum

/-! ### Build runner (the `pre_diff_script` block of `getBranchStats`) -/

/-- Fuelled split of `s` on every (non-overlapping, leftmost-first)
occurrence of the non-empty separator: JS `script.split('&&')`.  The fuel
`s.length + 1` always suffices because each found occurrence consumes at
least one character. -/
def jsSplitAllGo (sep : List Char) : Nat → List Char → List (List Char)
  | 0, s => [s]
  | fuel + 1, s =>
    match findSep sep s with
    | none => [s]
    | some i => s.take i :: jsSplitAllGo sep fuel (s.drop (i + sep.length))

/-- JS `s.split(sep)` for a non-empty literal separator. -/
def jsSplitAll (sep s : String) : List String :=
  (jsSplitAllGo sep.data (s.data.length + 1) s.data).map (fun cs => (⟨cs⟩ : String))

/-- One parsed build command: `const [cmdName, ...cmdArgs] = cmd.split(/\s+/)`. -/
structure BuildCmd where
  name : String
  args : List String
deriving DecidableEq

/-- `script.split('&&').map(cmd => cmd.trim())` followed by per-segment
whitespace tokenization into command name and arguments. -/
def parseScript (script : String) : List BuildCmd :=
  ((jsSplitAll "&&" script).map trimStr).map (fun cmd =>
    match tokenizeWs cmd with
    | [] => { name := "", args := [] }
    | n :: args => { name := n, args := args })

/-- The `for (const cmd of commands) await exec(...)` loop, observed through
the success oracle `ex`: commands run in order inside the workspace `cwd`;
`exec` throws on failure, so the loop stops right after the first failing
command.  Returns the executed calls as `(cwd, name, args)` triples. -/
def runCommands (cwd : String) (ex : BuildCmd → Bool) :
    List BuildCmd → List (String × String × List String)
  | [] => []
  | c :: cs =>
    if ex c then (cwd, c.name, c.args) :: runCommands cwd ex cs
    else [(cwd, c.name, c.args)]

/-- The whole `if (script) { ... }` block: nothing runs when the script input
is absent (`getInput` yields `""`, which is falsy); otherwise the parsed
commands run sequentially with first-failure-aborts semantics. -/
def runScript (cwd script : String) (ex : BuildCmd → Bool) :
    List (String × String × List String) :=
  if script = "" then []
  else runCommands cwd ex (parseScript script)

/-! ### Run orchestrator (`run`) -/

/-- One existing comment on the pull request, as the comment API lists it
(`body` is optional in the API schema). -/
structure CommentRec where
  id : Nat
  body : Option String
deriving DecidableEq

/-- A comment-API mutation the run performs, in order. -/
inductive Effect where
  | deleteComment (id : Nat)
  | createComment (body : String)
deriving DecidableEq

/-- Observable outcome of `run`: the failure message (if `setFailed` was
reached), whether the action inputs were read (`getInput` calls), whether the
branch stats were computed (`getBranchStats` calls), and the comment-API
mutations in order. -/
structure RunResult where
  failedMsg : Option String
  inputsRead : Bool
  statsComputed : Bool
  effects : List Effect
deriving DecidableEq

/-- The configuration `run` starts from: the environment token, the webhook
payload fields it destructures, and the raw action inputs. -/
structure RunInputs where
  githubToken : Option String
  payloadRepository : Option (String × String)
  payloadPullRequest : Option (String × Nat)
  fileDetailsOpen : String
  replaceComment : Option String
deriving DecidableEq

/-- Modelled from the spec: the `replace_comment` input default.  The action
metadata file (action.yml), which declares input defaults, is not part of
`src/`; per the spec (§6: "`replace_comment` (optional boolean, default
true)") and the repository README, `getInput('replace_comment')` yields the
declared default `"true"` when the workflow does not supply the input. -/
def replaceCommentValue (inp : RunInputs) : String :=
  inp.replaceComment.getD "true"

/-- `comment.body?.startsWith(commentHash)`: a comment with no body is never
deleted. -/
def hasMarker (c : CommentRec) : Bool :=
  match c.body with
  | some b => jsStartsWith b commentHash
  | none => false

/-- The control flow of `run` from `src/index.ts`, with the two computed
`BranchStats` supplied as oracles (their computation is filesystem/git work):
missing token → `setFailed`; incomplete payload → plain `return` before any
input is read; equal uncompressed totals → plain `return` with no API
mutation; otherwise optionally delete every marker-tagged comment, then
create the rendered comment. -/
def runModel (inp : RunInputs) (comments : List CommentRec)
    (targetStats prStats : BranchStats) : RunResult :=
  match inp.githubToken with
  | none =>
    { failedMsg := some "Missing required environment variables: GITHUB_TOKEN"
      inputsRead := false, statsComputed := false, effects := [] }
  | some _ =>
    match inp.payloadRepository, inp.payloadPullRequest with
    | some _, some _ =>
      if targetStats.totalSize = prStats.totalSize then
        { failedMsg := none, inputsRead := true, statsComputed := true, effects := [] }
      else
        let deletes :=
          if replaceCommentValue inp = "true" then
            (comments.filter hasMarker).map (fun c => Effect.deleteComment c.id)
          else []
        { failedMsg := none, inputsRead := true, statsComputed := true
          effects := deletes ++
            [Effect.createComment
              (getStatComment targetStats prStats (inp.fileDetailsOpen == "true"))] }
    | _, _ =>
      { failedMsg := none, inputsRead := false, statsComputed := false, effects := [] }

/-! ### Basic lemmas about the embedded primitives -/

theorem getFile_eq_none_iff (files : List (String × FileMetric)) (k : String) :
    getFile files k = none ↔ k ∉ keysOf files := by
  unfold getFile keysOf
  rw [Option.map_eq_none', List.find?_eq_none]
  constructor
  · intro h hk
    rcases List.mem_map.mp hk with ⟨e, he, hek⟩
    exact h e he (by simp [hek])
  · intro h e he heq
    exact h (List.mem_map.mpr ⟨e, he, beq_iff_eq.mp heq⟩)

theorem getFile_of_mem {files : List (String × FileMetric)}
    (hnd : (keysOf files).Nodup) {e : String × FileMetric} (he : e ∈ files) :
    getFile files e.1 = some e.2 := by
  induction files with
  | nil => cases he
  | cons f fs ih =>
    rcases List.mem_cons.mp he with h | h
    · subst h
      simp [getFile, List.find?_cons_of_pos]
    · have hnd' : (keysOf fs).Nodup := (List.nodup_cons.mp hnd).2
      have hne : ¬ (f.1 == e.1) = true := by
        intro hb
        have : f.1 = e.1 := beq_iff_eq.mp hb
        exact (List.nodup_cons.mp hnd).1
          (by show f.1 ∈ List.map _ fs; rw [this]; exact List.mem_map.mpr ⟨e, h, rfl⟩)
      have := ih hnd' h
      simpa [getFile, List.find?_cons_of_neg, hne] using this

theorem mem_keysOf {files : List (String × FileMetric)} {k : String} :
    k ∈ keysOf files ↔ ∃ m, (k, m) ∈ files := by
  unfold keysOf
  constructor
  · intro hk
    rcases List.mem_map.mp hk with ⟨e, he, hek⟩
    exact ⟨e.2, by simpa [← hek] using he⟩
  · rintro ⟨m, hm⟩
    exact List.mem_map.mpr ⟨(k, m), hm, rfl⟩

theorem getFile_isSome_of_mem_keys {files : List (String × FileMetric)} {k : String}
    (hk : k ∈ keysOf files) : ∃ m, getFile files k = some m := by
  rcases Option.eq_none_or_eq_some (getFile files k) with h | h
  · exact absurd ((getFile_eq_none_iff files k).mp h) (by simpa using hk)
  · rcases h with ⟨m, hm⟩; exact ⟨m, hm⟩

theorem objSet_fresh {files : List (String × FileMetric)} {k : String}
    (hk : k ∉ keysOf files) (v : FileMetric) :
    objSet files k v = files ++ [(k, v)] := by
  unfold objSet
  have : files.any (fun e => e.1 == k) = false := by
    rw [List.any_eq_false]
    intro e he hb
    exact hk (List.mem_map.mpr ⟨e, he, beq_iff_eq.mp hb⟩)
  simp [this]

theorem keysOf_append (a b : List (String × FileMetric)) :
    keysOf (a ++ b) = keysOf a ++ keysOf b := by
  simp [keysOf]

theorem string_append_space_ne_empty (x y : String) : x ++ " " ++ y ≠ "" := by
  intro h
  have := congrArg String.length h
  simp [String.length_append] at this
  exact absurd this.1.2 (by decide)

/-! ### C2: equal uncompressed totals suppress all output -/

/-- C2. For every run whose two computed `BranchStats` have identical
`totalSize`, the orchestrator completes normally (`failedMsg = none`), reads
its inputs and computes the stats, but produces no comment-API effect at all
— no deletion and no creation — even when the gzip or brotli totals or the
individual file sets differ (the early exit compares `totalSize` only). -/
theorem equal_totals_no_output (inp : RunInputs) (comments : List CommentRec)
    (targetStats prStats : BranchStats) (tok : String) (repo : String × String)
    (pull : String × Nat)
    (htok : inp.githubToken = some tok)
    (hrepo : inp.payloadRepository = some repo)
    (hpull : inp.payloadPullRequest = some pull)
    (heq : targetStats.totalSize = prStats.totalSize) :
    runModel inp comments targetStats prStats =
      { failedMsg := none, inputsRead := true, statsComputed := true, effects := [] } := by
  unfold runModel
  rw [htok, hrepo, hpull]
  simp [heq]

/-- Witness for C2 at a concrete input: equal uncompressed totals but
different gzip totals, brotli totals and file sets. -/
theorem equal_totals_no_output_witness :
    (({ githubToken := some "t", payloadRepository := some ("o", "r")
        payloadPullRequest := some ("feature", 7), fileDetailsOpen := ""
        replaceComment := none } : RunInputs).githubToken = some "t") ∧
    (runModel
      { githubToken := some "t", payloadRepository := some ("o", "r")
        payloadPullRequest := some ("feature", 7), fileDetailsOpen := ""
        replaceComment := none }
      [{ id := 1, body := some "<!-- @alex-page was here -->\nold" }]
      { totalSize := 100, totalGzip := 40, totalBrotli := 30, files := [("a.js", ⟨100, 40, 30⟩)] }
      { totalSize := 100, totalGzip := 99, totalBrotli := 98, files := [("b.js", ⟨100, 99, 98⟩)] } =
      { failedMsg := none, inputsRead := true, statsComputed := true, effects := [] }) :=
  ⟨rfl, equal_totals_no_output _ _ _ _ "t" ("o", "r") ("feature", 7) rfl rfl rfl rfl⟩

/-! ### C10: incomplete payload -/

/-- Counterexample to C10 as stated: a run whose payload lacks both the
repository and the pull-request object, but whose environment also lacks
`GITHUB_TOKEN`, does not terminate as a silent normal completion — the token
check precedes the payload check, so the run fails with `setFailed`. -/
theorem missing_token_failure_counterexample :
    (runModel
      { githubToken := none, payloadRepository := none, payloadPullRequest := none
        fileDetailsOpen := "", replaceComment := none }
      [] emptyBranchStats emptyBranchStats).failedMsg ≠ none := by
  decide

/-- C10 (amended). Provided `GITHUB_TOKEN` is present, a run whose payload
lacks the repository or the pull-request object terminates immediately as a
silent normal completion: no failure message, no action input read, no
branch stats computed, and no comment-API call. -/
theorem missing_payload_silent_exit (inp : RunInputs) (comments : List CommentRec)
    (targetStats prStats : BranchStats) (tok : String)
    (htok : inp.githubToken = some tok)
    (hmiss : inp.payloadRepository = none ∨ inp.payloadPullRequest = none) :
    runModel inp comments targetStats prStats =
      { failedMsg := none, inputsRead := false, statsComputed := false, effects := [] } := by
  unfold runModel
  rw [htok]
  rcases hmiss with h | h
  · rw [h]
  · rw [h]
    rcases hrepo : inp.payloadRepository with _ | r <;> rfl

/-- Witness for C10 (amended): token present, pull-request object missing. -/
theorem missing_payload_silent_exit_witness :
    (({ githubToken := some "t", payloadRepository := some ("o", "r")
        payloadPullRequest := none, fileDetailsOpen := ""
        replaceComment := none } : RunInputs).payloadPullRequest = none) ∧
    (runModel
      { githubToken := some "t", payloadRepository := some ("o", "r")
        payloadPullRequest := none, fileDetailsOpen := "", replaceComment := none }
      [{ id := 3, body := some "unrelated" }] emptyBranchStats
      { totalSize := 5, totalGzip := 1, totalBrotli := 1, files := [("a", ⟨5, 1, 1⟩)] } =
      { failedMsg := none, inputsRead := false, statsComputed := false, effects := [] }) :=
  ⟨rfl, missing_payload_silent_exit _ _ _ _ "t" rfl (Or.inr rfl)⟩

/-! ### C9: comment replacement -/

/-- C9. When a report is published (complete payload, token present, totals
differ): with `replace_comment` unset the value defaults to `"true"`; with
value `"true"` the effects are exactly one deletion per existing
marker-tagged comment (in listing order) followed by the single creation, so
every comment whose body starts with the marker is deleted before the new
comment is created; with value `"false"` the effects are exactly one
creation and no deletion, so no existing comment is touched and the comment
count grows by exactly one. -/
theorem replace_comment_deletes_marker_comments (inp : RunInputs)
    (comments : List CommentRec) (targetStats prStats : BranchStats)
    (tok : String) (repo : String × String) (pull : String × Nat)
    (htok : inp.githubToken = some tok)
    (hrepo : inp.payloadRepository = some repo)
    (hpull : inp.payloadPullRequest = some pull)
    (hne : targetStats.totalSize ≠ prStats.totalSize) :
    (inp.replaceComment = none → replaceCommentValue inp = "true") ∧
    (replaceCommentValue inp = "true" →
      (runModel inp comments targetStats prStats).effects =
        (comments.filter hasMarker).map (fun c => Effect.deleteComment c.id) ++
          [Effect.createComment
            (getStatComment targetStats prStats (inp.fileDetailsOpen == "true"))] ∧
      ∀ c ∈ comments, hasMarker c = true →
        Effect.deleteComment c.id ∈ (runModel inp comments targetStats prStats).effects) ∧
    (inp.replaceComment = some "false" →
      (runModel inp comments targetStats prStats).effects =
        [Effect.createComment
          (getStatComment targetStats prStats (inp.fileDetailsOpen == "true"))]) := by
  refine ⟨fun h => by simp [replaceCommentValue, h], ?_, ?_⟩
  · intro hrc
    have heff : (runModel inp comments targetStats prStats).effects =
        (comments.filter hasMarker).map (fun c => Effect.deleteComment c.id) ++
          [Effect.createComment
            (getStatComment targetStats prStats (inp.fileDetailsOpen == "true"))] := by
      unfold runModel
      rw [htok, hrepo, hpull]
      simp [hne, hrc]
    refine ⟨heff, fun c hc hm => ?_⟩
    rw [heff]
    exact List.mem_append_left _
      (List.mem_map.mpr ⟨c, List.mem_filter.mpr ⟨hc, hm⟩, rfl⟩)
  · intro hrc
    unfold runModel
    rw [htok, hrepo, hpull]
    have : replaceCommentValue inp = "false" := by simp [replaceCommentValue, hrc]
    simp [hne, this]

/-- Witness for C9: two prior marker-tagged comments (plus one unrelated and
one with no body), `replace_comment` unset (defaulting to `"true"`): both
marker comments are deleted, in order, before the creation. -/
theorem replace_comment_deletes_marker_comments_witness :
    (({ githubToken := some "t", payloadRepository := some ("o", "r")
        payloadPullRequest := some ("feature", 7), fileDetailsOpen := ""
        replaceComment := none } : RunInputs).githubToken = some "t") ∧
    ((100 : Nat) ≠ (150 : Nat)) ∧
    ((⟨some "t", some ("o", "r"), some ("feature", 7), "", none⟩ : RunInputs).replaceComment = none →
      replaceCommentValue ⟨some "t", some ("o", "r"), some ("feature", 7), "", none⟩ = "true") ∧
    (replaceCommentValue ⟨some "t", some ("o", "r"), some ("feature", 7), "", none⟩ = "true" →
      (runModel ⟨some "t", some ("o", "r"), some ("feature", 7), "", none⟩
        [⟨1, some "<!-- @alex-page was here -->\nold one"⟩, ⟨2, some "a review"⟩,
         ⟨3, some "<!-- @alex-page was here -->\nold two"⟩, ⟨4, none⟩]
        { totalSize := 100, totalGzip := 40, totalBrotli := 30, files := [("a.js", ⟨100, 40, 30⟩)] }
        { totalSize := 150, totalGzip := 60, totalBrotli := 50, files := [("a.js", ⟨150, 60, 50⟩)] }).effects =
        ([⟨1, some "<!-- @alex-page was here -->\nold one"⟩,
          ⟨3, some "<!-- @alex-page was here -->\nold two"⟩] : List CommentRec).map
            (fun c => Effect.deleteComment c.id) ++
          [Effect.createComment
            (getStatComment
              { totalSize := 100, totalGzip := 40, totalBrotli := 30, files := [("a.js", ⟨100, 40, 30⟩)] }
              { totalSize := 150, totalGzip := 60, totalBrotli := 50, files := [("a.js", ⟨150, 60, 50⟩)] }
              false)] ∧
      ∀ c ∈ ([⟨1, some "<!-- @alex-page was here -->\nold one"⟩, ⟨2, some "a review"⟩,
              ⟨3, some "<!-- @alex-page was here -->\nold two"⟩, ⟨4, none⟩] : List CommentRec),
        hasMarker c = true →
        Effect.deleteComment c.id ∈
          (runModel ⟨some "t", some ("o", "r"), some ("feature", 7), "", none⟩
            [⟨1, some "<!-- @alex-page was here -->\nold one"⟩, ⟨2, some "a review"⟩,
             ⟨3, some "<!-- @alex-page was here -->\nold two"⟩, ⟨4, none⟩]
            { totalSize := 100, totalGzip := 40, totalBrotli := 30, files := [("a.js", ⟨100, 40, 30⟩)] }
            { totalSize := 150, totalGzip := 60, totalBrotli := 50, files := [("a.js", ⟨150, 60, 50⟩)] }).effects) := by
  refine ⟨rfl, by decide, ?_⟩
  have h := replace_comment_deletes_marker_comments
    ⟨some "t", some ("o", "r"), some ("feature", 7), "", none⟩
    [⟨1, some "<!-- @alex-page was here -->\nold one"⟩, ⟨2, some "a review"⟩,
     ⟨3, some "<!-- @alex-page was here -->\nold two"⟩, ⟨4, none⟩]
    { totalSize := 100, totalGzip := 40, totalBrotli := 30, files := [("a.js", ⟨100, 40, 30⟩)] }
    { totalSize := 150, totalGzip := 60, totalBrotli := 50, files := [("a.js", ⟨150, 60, 50⟩)] }
    "t" ("o", "r") ("feature", 7) rfl rfl rfl (by decide)
  refine ⟨h.1, ?_⟩
  intro hrc
  have h2 := h.2.1 hrc
  refine ⟨?_, h2.2⟩
  rw [h2.1]
  rfl

/-! ### C6: build-script splitting and sequential first-failure execution -/

theorem runCommands_eq_take (cwd : String) (ex : BuildCmd → Bool) :
    ∀ cmds : List BuildCmd,
      runCommands cwd ex cmds =
        (cmds.take ((cmds.takeWhile ex).length + 1)).map (fun c => (cwd, c.name, c.args))
  | [] => by simp [runCommands]
  | c :: cs => by
    by_cases h : ex c = true
    · simp [runCommands, h, List.takeWhile_cons, runCommands_eq_take cwd ex cs]
    · simp [runCommands, h, List.takeWhile_cons]

/-- C6. The build runner parses the script by splitting on the literal
`"&&"`, trimming each segment and tokenizing it on whitespace into a command
name and arguments (`parseScript`), and executes the parsed commands
sequentially, in order, inside the workspace directory `cwd`: the executed
calls are exactly the parsed list cut off one past its longest all-successful
head, so the first failing command is the last one executed and no later
command runs; when no script is provided (`getInput` yields `""`), nothing
executes. -/
theorem build_script_sequential_first_failure (cwd script : String) (ex : BuildCmd → Bool) :
    runScript cwd script ex =
      if script = "" then []
      else
        (((jsSplitAll "&&" script).map trimStr).map (fun cmd =>
            match tokenizeWs cmd with
            | [] => ({ name := "", args := [] } : BuildCmd)
            | n :: args => ({ name := n, args := args } : BuildCmd)) |>.take
          (((parseScript script).takeWhile ex).length + 1)).map
            (fun c => (cwd, c.name, c.args)) := by
  unfold runScript
  by_cases h : script = ""
  · simp [h]
  · simp only [h, if_false]
    rw [runCommands_eq_take]
    rfl

/-! ### C8: the collapsible summary label -/

theorem summary_phrase_ne_empty (c : Nat) (s1 s2 : String) :
    ∀ x ∈ (if c = 0 then ([] : List String) else [toString c ++ " " ++ pluralize c s1 s2]),
      x ≠ "" := by
  by_cases h : c = 0 <;> simp [h]
  exact string_append_space_ne_empty _ _

/-- C8. The visible summary text of the collapsible section is the
`", "`-joined list, in the order changed then added then removed, of the
non-zero classification counts, each rendered as the count followed by the
correctly pluralized noun; zero-count categories contribute nothing (so
there is no leading or doubled comma: every joined phrase is non-empty);
`pluralize` yields the singular exactly at count 1; and the `<details>` tag
carries the `open` attribute iff the caller requested it. -/
theorem summary_label_counts_pluralized_open_iff
    (pr target : List (String × FileMetric)) (b : Bool) :
    (detailsSummaryText pr target =
      joinSep ", "
        ((if countChanged pr target = 0 then []
          else [toString (countChanged pr target) ++ " " ++
            pluralize (countChanged pr target) "file changed" "files changed"]) ++
         (if countAdded pr target = 0 then []
          else [toString (countAdded pr target) ++ " " ++
            pluralize (countAdded pr target) "file added" "files added"]) ++
         (if countRemoved pr target = 0 then []
          else [toString (countRemoved pr target) ++ " " ++
            pluralize (countRemoved pr target) "file removed" "files removed"]))) ∧
    (∀ x ∈ ((if countChanged pr target = 0 then ([] : List String)
          else [toString (countChanged pr target) ++ " " ++
            pluralize (countChanged pr target) "file changed" "files changed"]) ++
         (if countAdded pr target = 0 then []
          else [toString (countAdded pr target) ++ " " ++
            pluralize (countAdded pr target) "file added" "files added"]) ++
         (if countRemoved pr target = 0 then []
          else [toString (countRemoved pr target) ++ " " ++
            pluralize (countRemoved pr target) "file removed" "files removed"])),
      x ≠ "") ∧
    (∀ s1 s2 : String, pluralize 1 s1 s2 = s1) ∧
    (∀ n : Nat, n ≠ 1 → ∀ s1 s2 : String, pluralize n s1 s2 = s2) ∧
    (detailsOpenAttr b = " open" ↔ b = true) := by
  refine ⟨?_, ?_, fun s1 s2 => rfl, fun n hn s1 s2 => by simp [pluralize, hn], ?_⟩
  · unfold detailsSummaryText
    by_cases h1 : countChanged pr target = 0 <;>
      by_cases h2 : countAdded pr target = 0 <;>
        by_cases h3 : countRemoved pr target = 0 <;>
          simp [h1, h2, h3]
  · intro x hx
    rcases List.mem_append.mp hx with hx | hx
    · rcases List.mem_append.mp hx with hx | hx
      · exact summary_phrase_ne_empty _ _ _ x hx
      · exact summary_phrase_ne_empty _ _ _ x hx
    · exact summary_phrase_ne_empty _ _ _ x hx
  · cases b <;> simp [detailsOpenAttr]

/-! ### C7: removed rows -/

theorem getFile_mem_of_eq_some {files : List (String × FileMetric)} {k : String}
    {m : FileMetric} (h : getFile files k = some m) : (k, m) ∈ files := by
  unfold getFile at h
  rcases Option.map_eq_some'.mp h with ⟨e, he, hm⟩
  have hk : (e.1 == k) = true := by simpa using List.find?_some he
  have hmem := List.mem_of_find?_eq_some he
  have : e = (k, m) := by
    cases e
    simp_all [beq_iff_eq.mp hk]
  exact this ▸ hmem

theorem keyed_filterMap_filter_nil (l : List (String × FileMetric))
    (g : (String × FileMetric) → Option (String × String)) (p : String)
    (hg : ∀ e r, g e = some r → r.1 = e.1) (hk : ∀ e ∈ l, e.1 ≠ p) :
    (l.filterMap g).filter (fun r => r.1 == p) = [] := by
  rw [List.filter_eq_nil_iff]
  intro r hr
  rcases List.mem_filterMap.mp hr with ⟨e, he, hge⟩
  simpa using (hg e r hge ▸ hk e he)

theorem keyed_filterMap_filter_single
    (g : (String × FileMetric) → Option (String × String)) (p : String)
    (m : FileMetric) (row : String)
    (hg : ∀ e r, g e = some r → r.1 = e.1) :
    ∀ l : List (String × FileMetric), (keysOf l).Nodup → (p, m) ∈ l →
      g (p, m) = some (p, row) →
      (l.filterMap g).filter (fun r => r.1 == p) = [(p, row)] := by
  intro l
  induction l with
  | nil => intro _ h; cases h
  | cons e ts ih =>
    intro hnd hmem hrow
    have hnd' : (keysOf ts).Nodup := (List.nodup_cons.mp hnd).2
    rcases List.mem_cons.mp hmem with he | hts
    · have hknot : ∀ e' ∈ ts, e'.1 ≠ p := by
        intro e' he' hp
        exact (List.nodup_cons.mp hnd).1
          (by show e.1 ∈ _; rw [← he, ← hp]; exact List.mem_map.mpr ⟨e', he', rfl⟩)
      have hnil := keyed_filterMap_filter_nil ts g p hg hknot
      rw [List.filterMap_cons, ← he, hrow, List.filter_cons]
      have hc : (((p, row) : String × String).1 == p) = true := by simp
      rw [if_pos hc, hnil]
    · have hep : e.1 ≠ p := by
        intro hp
        exact (List.nodup_cons.mp hnd).1
          (by show e.1 ∈ _; rw [hp]; exact List.mem_map.mpr ⟨(p, m), hts, rfl⟩)
      rw [List.filterMap_cons]
      rcases hge : g e with _ | r
      · exact ih hnd' hts hrow
      · rw [List.filter_cons]
        have hc : ¬ ((r.1 == p) = true) := by
          simp [hg e r hge, hep]
        rw [if_neg hc]
        exact ih hnd' hts hrow

theorem prettyBytesSigned_neg (n : Nat) (h : 0 < n) :
    prettyBytesSigned (-(n : Int)) = "-" ++ prettyBytesNat n := by
  have h0 : ¬ (-(n : Int) = 0) := by omega
  have h1 : -(n : Int) < 0 := by omega
  simp [prettyBytesSigned, h0, h1]

/-- C7. For every file present (with metrics `m`) in the target stats and
absent from the PR stats, and for any displayed common prefix `cp`, the
rendered per-file table contains exactly one row keyed by that file: the
removed row, which shows the literal `0 B` as the current value for each of
size, gzip and brotli, and whose deltas are
`prettyBytes(-metric, {signed: true})` — for a non-zero metric this is the
`-`-signed rendering of the removed file's full metric. -/
theorem removed_row_zero_current_negative_delta
    (pr target : List (String × FileMetric)) (p : String) (m : FileMetric)
    (htg : (keysOf target).Nodup)
    (hsome : getFile target p = some m) (hnone : getFile pr p = none) :
    ∀ cp : String,
      (rowsWithKeys cp pr target).filter (fun r => r.1 == p) = [(p, rowRemoved cp p m)] ∧
      rowRemoved cp p m =
        "| <sub>~" ++ sliceFrom p cp.length ++ "~</sub> | <sub>0 B `" ++
          prettyBytesSigned (-(m.size : Int)) ++ "`</sub> | <sub>0 B `" ++
          prettyBytesSigned (-(m.gzip : Int)) ++ "`</sub> | <sub>0 B `" ++
          prettyBytesSigned (-(m.brotli : Int)) ++ "`</sub> |" ∧
      (0 < m.size → prettyBytesSigned (-(m.size : Int)) = "-" ++ prettyBytesNat m.size) ∧
      (0 < m.gzip → prettyBytesSigned (-(m.gzip : Int)) = "-" ++ prettyBytesNat m.gzip) ∧
      (0 < m.brotli → prettyBytesSigned (-(m.brotli : Int)) = "-" ++ prettyBytesNat m.brotli) := by
  intro cp
  have hg1 : ∀ e r, (fun e : String × FileMetric =>
      match getFile target e.1 with
      | none => some (e.1, rowAdded cp e.1 e.2)
      | some tm => if e.2.size ≠ tm.size then some (e.1, rowChanged cp e.1 e.2 tm) else none)
        e = some r → r.1 = e.1 := by
    intro e r hge
    dsimp only [] at hge
    rcases h : getFile target e.1 with _ | tm
    · rw [h] at hge
      cases hge
      rfl
    · rw [h] at hge
      dsimp only [] at hge
      by_cases hs : e.2.size ≠ tm.size
      · rw [if_pos hs] at hge
        cases hge
        rfl
      · rw [if_neg hs] at hge
        cases hge
  have hg2 : ∀ e r, (fun e : String × FileMetric =>
      if getFile pr e.1 = none then some (e.1, rowRemoved cp e.1 e.2) else none)
        e = some r → r.1 = e.1 := by
    intro e r hge
    dsimp only [] at hge
    by_cases h : getFile pr e.1 = none
    · rw [if_pos h] at hge
      cases hge
      rfl
    · rw [if_neg h] at hge
      cases hge
  refine ⟨?_, rfl, prettyBytesSigned_neg m.size, prettyBytesSigned_neg m.gzip,
    prettyBytesSigned_neg m.brotli⟩
  unfold rowsWithKeys
  rw [List.filter_append]
  have hprkeys : ∀ e ∈ pr, e.1 ≠ p := by
    intro e he hp
    exact (getFile_eq_none_iff pr p).mp hnone (hp ▸ List.mem_map.mpr ⟨e, he, rfl⟩)
  rw [keyed_filterMap_filter_nil pr _ p hg1 hprkeys, List.nil_append]
  refine keyed_filterMap_filter_single _ p m (rowRemoved cp p m) hg2 target htg
    (getFile_mem_of_eq_some hsome) ?_
  show (if getFile pr p = none then some (p, rowRemoved cp p m) else none) =
    some (p, rowRemoved cp p m)
  rw [if_pos hnone]

/-- Witness for C7 at the spec's scenario: target has `z.js` (200 bytes,
gzip 120, brotli 100), the PR branch lacks it entirely; additionally, at this
input the collapsible label evaluates to `"1 file removed"`, the delta to
`"-200 B"` and the single row to the expected rendering. -/
theorem removed_row_zero_current_negative_delta_witness :
    ((keysOf [("z.js", (⟨200, 120, 100⟩ : FileMetric))]).Nodup) ∧
    (getFile [("z.js", (⟨200, 120, 100⟩ : FileMetric))] "z.js" =
      some (⟨200, 120, 100⟩ : FileMetric)) ∧
    (getFile ([] : List (String × FileMetric)) "z.js" = none) ∧
    (∀ cp : String,
      (rowsWithKeys cp [] [("z.js", (⟨200, 120, 100⟩ : FileMetric))]).filter
          (fun r => r.1 == "z.js") =
        [("z.js", rowRemoved cp "z.js" (⟨200, 120, 100⟩ : FileMetric))] ∧
      rowRemoved cp "z.js" (⟨200, 120, 100⟩ : FileMetric) =
        "| <sub>~" ++ sliceFrom "z.js" cp.length ++ "~</sub> | <sub>0 B `" ++
          prettyBytesSigned (-((⟨200, 120, 100⟩ : FileMetric).size : Int)) ++ "`</sub> | <sub>0 B `" ++
          prettyBytesSigned (-((⟨200, 120, 100⟩ : FileMetric).gzip : Int)) ++ "`</sub> | <sub>0 B `" ++
          prettyBytesSigned (-((⟨200, 120, 100⟩ : FileMetric).brotli : Int)) ++ "`</sub> |" ∧
      (0 < (⟨200, 120, 100⟩ : FileMetric).size →
        prettyBytesSigned (-((⟨200, 120, 100⟩ : FileMetric).size : Int)) =
          "-" ++ prettyBytesNat (⟨200, 120, 100⟩ : FileMetric).size) ∧
      (0 < (⟨200, 120, 100⟩ : FileMetric).gzip →
        prettyBytesSigned (-((⟨200, 120, 100⟩ : FileMetric).gzip : Int)) =
          "-" ++ prettyBytesNat (⟨200, 120, 100⟩ : FileMetric).gzip) ∧
      (0 < (⟨200, 120, 100⟩ : FileMetric).brotli →
        prettyBytesSigned (-((⟨200, 120, 100⟩ : FileMetric).brotli : Int)) =
          "-" ++ prettyBytesNat (⟨200, 120, 100⟩ : FileMetric).brotli)) ∧
    (detailsSummaryText [] [("z.js", (⟨200, 120, 100⟩ : FileMetric))] = "1 file removed") ∧
    (prettyBytesSigned (-(200 : Int)) = "-200 B") :=
  ⟨by decide, rfl, rfl,
    removed_row_zero_current_negative_delta [] [("z.js", ⟨200, 120, 100⟩)] "z.js"
      ⟨200, 120, 100⟩ (by decide) rfl rfl,
    by decide, by decide⟩

/-! ### C5: totals versus the sum of the files map -/

theorem collect_go (branch : String) (metricOf : String → FileMetric) :
    ∀ (files : List String) (bs : BranchStats),
      (files.map (relativeKeyStr branch)).Nodup →
      (∀ f ∈ files, relativeKeyStr branch f ∉ keysOf bs.files) →
      files.foldl (fun b f => getFileStats branch metricOf f b) bs =
        { totalSize := bs.totalSize + (files.map (fun f => (metricOf f).size)).sum
          totalGzip := bs.totalGzip + (files.map (fun f => (metricOf f).gzip)).sum
          totalBrotli := bs.totalBrotli + (files.map (fun f => (metricOf f).brotli)).sum
          files := bs.files ++
            files.map (fun f => (relativeKeyStr branch f, metricOf f)) } := by
  intro files
  induction files with
  | nil =>
    intro bs _ _
    cases bs
    simp
  | cons f fs ih =>
    intro bs hnd hdisj
    have hfresh : relativeKeyStr branch f ∉ keysOf bs.files :=
      hdisj f (List.mem_cons_self f fs)
    have hstep : getFileStats branch metricOf f bs =
        { totalSize := bs.totalSize + (metricOf f).size
          totalGzip := bs.totalGzip + (metricOf f).gzip
          totalBrotli := bs.totalBrotli + (metricOf f).brotli
          files := bs.files ++ [(relativeKeyStr branch f, metricOf f)] } := by
      show ({ totalSize := bs.totalSize + (metricOf f).size
              totalGzip := bs.totalGzip + (metricOf f).gzip
              totalBrotli := bs.totalBrotli + (metricOf f).brotli
              files := objSet bs.files (relativeKeyStr branch f) (metricOf f) } : BranchStats) = _
      rw [objSet_fresh hfresh]
    have hnd' : (fs.map (relativeKeyStr branch)).Nodup := by
      simpa using (List.nodup_cons.mp (by simpa using hnd)).2
    have hhead : relativeKeyStr branch f ∉ fs.map (relativeKeyStr branch) :=
      (List.nodup_cons.mp (by simpa using hnd)).1
    have hdisj' : ∀ f' ∈ fs, relativeKeyStr branch f' ∉
        keysOf (bs.files ++ [(relativeKeyStr branch f, metricOf f)]) := by
      intro f' hf'
      rw [keysOf_append]
      intro hmem
      rcases List.mem_append.mp hmem with h | h
      · exact hdisj f' (List.mem_cons_of_mem f hf') h
      · have : relativeKeyStr branch f' = relativeKeyStr branch f := by
          simpa [keysOf] using h
        exact hhead (this ▸ List.mem_map.mpr ⟨f', hf', rfl⟩)
    rw [List.foldl_cons, hstep, ih _ hnd' (by simpa using hdisj')]
    simp [List.append_assoc, Nat.add_assoc]

theorem partition_sums (target : List (String × FileMetric)) (proj : FileMetric → Nat) :
    ∀ l : List (String × FileMetric),
      ((addedEntries l target).map (fun e => proj e.2)).sum +
      ((changedEntries l target).map (fun e => proj e.2)).sum +
      ((unchangedEntries l target).map (fun e => proj e.2)).sum =
      (l.map (fun e => proj e.2)).sum := by
  intro l
  induction l with
  | nil => simp [addedEntries, changedEntries, unchangedEntries]
  | cons e ts ih =>
    simp only [addedEntries, changedEntries, unchangedEntries] at ih ⊢
    rcases h : getFile target e.1 with _ | tm
    · simp only [List.filter_cons, h, Option.isNone_none, Option.isNone_some,
        Bool.false_eq_true, if_true, if_false, List.map_cons, List.sum_cons]
      omega
    · by_cases hs : e.2.size = tm.size
      · have h1 : (e.2.size != tm.size) = false := by simp [hs]
        have h2 : (e.2.size == tm.size) = true := beq_iff_eq.mpr hs
        simp only [List.filter_cons, h, h1, h2, Option.isNone_none, Option.isNone_some,
          Bool.false_eq_true, if_true, if_false, List.map_cons, List.sum_cons]
        omega
      · have h1 : (e.2.size != tm.size) = true := bne_iff_ne.mpr hs
        have h2 : (e.2.size == tm.size) = false := beq_eq_false_iff_ne.mpr hs
        simp only [List.filter_cons, h, h1, h2, Option.isNone_none, Option.isNone_some,
          Bool.false_eq_true, if_true, if_false, List.map_cons, List.sum_cons]
        omega

/-- Counterexample to C5 as stated: in the collected `BranchStats` for branch
`"src"` over two distinct files whose buggy relative keys collide (both
compute to `""` because the branch name reoccurs inside the path), the totals
count both files (150 bytes) while the files map retains only the

last-written entry (50 bytes), so `totalSize` differs from the sum of the
entries of the files map. -/
theorem totals_key_collision_counterexample :
    ¬ ((collectBranchStats "src"
        (fun f => if f = "/w/.filediff/src/src/x.js" then ⟨100, 10, 5⟩ else ⟨50, 6, 3⟩)
        ["/w/.filediff/src/src/x.js", "/w/.filediff/src/src/y.js"]).totalSize =
      sumSizes (collectBranchStats "src"
        (fun f => if f = "/w/.filediff/src/src/x.js" then ⟨100, 10, 5⟩ else ⟨50, 6, 3⟩)
        ["/w/.filediff/src/src/x.js", "/w/.filediff/src/src/y.js"]).files) := by
  decide

/-- C5 (amended). For every `BranchStats` produced by collection over files
whose computed relative keys are pairwise distinct (true whenever the
relative-path computation is injective on the collected files; violated only
by key collisions as in the counterexample), `totalSize` equals the sum of
the `size` fields over all entries of the files map, and analogously for
gzip and brotli; moreover, against any target stats, summing the
Added + Modified + Unchanged entries of the collected map yields exactly the
corresponding total (the three classes partition the map). -/
theorem totals_sum_of_entries (branch : String) (metricOf : String → FileMetric)
    (files : List String) (hnd : (files.map (relativeKeyStr branch)).Nodup) :
    (collectBranchStats branch metricOf files).totalSize =
        sumSizes (collectBranchStats branch metricOf files).files ∧
    (collectBranchStats branch metricOf files).totalGzip =
        sumGzips (collectBranchStats branch metricOf files).files ∧
    (collectBranchStats branch metricOf files).totalBrotli =
        sumBrotlis (collectBranchStats branch metricOf files).files ∧
    (∀ target : List (String × FileMetric),
      sumSizes (addedEntries (collectBranchStats branch metricOf files).files target) +
      sumSizes (changedEntries (collectBranchStats branch metricOf files).files target) +
      sumSizes (unchangedEntries (collectBranchStats branch metricOf files).files target) =
        (collectBranchStats branch metricOf files).totalSize ∧
      sumGzips (addedEntries (collectBranchStats branch metricOf files).files target) +
      sumGzips (changedEntries (collectBranchStats branch metricOf files).files target) +
      sumGzips (unchangedEntries (collectBranchStats branch metricOf files).files target) =
        (collectBranchStats branch metricOf files).totalGzip ∧
      sumBrotlis (addedEntries (collectBranchStats branch metricOf files).files target) +
      sumBrotlis (changedEntries (collectBranchStats branch metricOf files).files target) +
      sumBrotlis (unchangedEntries (collectBranchStats branch metricOf files).files target) =
        (collectBranchStats branch metricOf files).totalBrotli) := by
  have hgo := collect_go branch metricOf files emptyBranchStats hnd
    (by intro f _; simp [emptyBranchStats, keysOf])
  have hbs : collectBranchStats branch metricOf files =
      { totalSize := (files.map (fun f => (metricOf f).size)).sum
        totalGzip := (files.map (fun f => (metricOf f).gzip)).sum
        totalBrotli := (files.map (fun f => (metricOf f).brotli)).sum
        files := files.map (fun f => (relativeKeyStr branch f, metricOf f)) } := by
    unfold collectBranchStats
    rw [hgo]
    simp [emptyBranchStats]
  have hsize : (collectBranchStats branch metricOf files).totalSize =
      sumSizes (collectBranchStats branch metricOf files).files := by
    rw [hbs]
    simp [sumSizes, List.map_map]
    rfl
  have hgzip : (collectBranchStats branch metricOf files).totalGzip =
      sumGzips (collectBranchStats branch metricOf files).files := by
    rw [hbs]
    simp [sumGzips, List.map_map]
    rfl
  have hbrotli : (collectBranchStats branch metricOf files).totalBrotli =
      sumBrotlis (collectBranchStats branch metricOf files).files := by
    rw [hbs]
    simp [sumBrotlis, List.map_map]
    rfl
  refine ⟨hsize, hgzip, hbrotli, fun target => ⟨?_, ?_, ?_⟩⟩
  · rw [hsize]
    exact partition_sums target (fun mm => mm.size) _
  · rw [hgzip]
    exact partition_sums target (fun mm => mm.gzip) _
  · rw [hbrotli]
    exact partition_sums target (fun mm => mm.brotli) _

/-- Witness for C5 (amended) at a concrete collection: branch `"main"`, two
files with distinct relative keys. -/
theorem totals_sum_of_entries_witness :
    ((["/w/.filediff/main/a.js", "/w/.filediff/main/b.js"].map
        (relativeKeyStr "main")).Nodup) ∧
    ((collectBranchStats "main"
        (fun f => if f = "/w/.filediff/main/a.js" then ⟨100, 10, 5⟩ else ⟨50, 6, 3⟩)
        ["/w/.filediff/main/a.js", "/w/.filediff/main/b.js"]).totalSize =
      sumSizes (collectBranchStats "main"
        (fun f => if f = "/w/.filediff/main/a.js" then ⟨100, 10, 5⟩ else ⟨50, 6, 3⟩)
        ["/w/.filediff/main/a.js", "/w/.filediff/main/b.js"]).files ∧
    (collectBranchStats "main"
        (fun f => if f = "/w/.filediff/main/a.js" then ⟨100, 10, 5⟩ else ⟨50, 6, 3⟩)
        ["/w/.filediff/main/a.js", "/w/.filediff/main/b.js"]).totalGzip =
      sumGzips (collectBranchStats "main"
        (fun f => if f = "/w/.filediff/main/a.js" then ⟨100, 10, 5⟩ else ⟨50, 6, 3⟩)
        ["/w/.filediff/main/a.js", "/w/.filediff/main/b.js"]).files ∧
    (collectBranchStats "main"
        (fun f => if f = "/w/.filediff/main/a.js" then ⟨100, 10, 5⟩ else ⟨50, 6, 3⟩)
        ["/w/.filediff/main/a.js", "/w/.filediff/main/b.js"]).totalBrotli =
      sumBrotlis (collectBranchStats "main"
        (fun f => if f = "/w/.filediff/main/a.js" then ⟨100, 10, 5⟩ else ⟨50, 6, 3⟩)
        ["/w/.filediff/main/a.js", "/w/.filediff/main/b.js"]).files ∧
    (∀ target : List (String × FileMetric),
      sumSizes (addedEntries (collectBranchStats "main"
        (fun f => if f = "/w/.filediff/main/a.js" then ⟨100, 10, 5⟩ else ⟨50, 6, 3⟩)
        ["/w/.filediff/main/a.js", "/w/.filediff/main/b.js"]).files target) +
      sumSizes (changedEntries (collectBranchStats "main"
        (fun f => if f = "/w/.filediff/main/a.js" then ⟨100, 10, 5⟩ else ⟨50, 6, 3⟩)
        ["/w/.filediff/main/a.js", "/w/.filediff/main/b.js"]).files target) +
      sumSizes (unchangedEntries (collectBranchStats "main"
        (fun f => if f = "/w/.filediff/main/a.js" then ⟨100, 10, 5⟩ else ⟨50, 6, 3⟩)
        ["/w/.filediff/main/a.js", "/w/.filediff/main/b.js"]).files target) =
        (collectBranchStats "main"
        (fun f => if f = "/w/.filediff/main/a.js" then ⟨100, 10, 5⟩ else ⟨50, 6, 3⟩)
        ["/w/.filediff/main/a.js", "/w/.filediff/main/b.js"]).totalSize ∧
      sumGzips (addedEntries (collectBranchStats "main"
        (fun f => if f = "/w/.filediff/main/a.js" then ⟨100, 10, 5⟩ else ⟨50, 6, 3⟩)
        ["/w/.filediff/main/a.js", "/w/.filediff/main/b.js"]).files target) +
      sumGzips (changedEntries (collectBranchStats "main"
        (fun f => if f = "/w/.filediff/main/a.js" then ⟨100, 10, 5⟩ else ⟨50, 6, 3⟩)
        ["/w/.filediff/main/a.js", "/w/.filediff/main/b.js"]).files target) +
      sumGzips (unchangedEntries (collectBranchStats "main"
        (fun f => if f = "/w/.filediff/main/a.js" then ⟨100, 10, 5⟩ else ⟨50, 6, 3⟩)
        ["/w/.filediff/main/a.js", "/w/.filediff/main/b.js"]).files target) =
        (collectBranchStats "main"
        (fun f => if f = "/w/.filediff/main/a.js" then ⟨100, 10, 5⟩ else ⟨50, 6, 3⟩)
        ["/w/.filediff/main/a.js", "/w/.filediff/main/b.js"]).totalGzip ∧
      sumBrotlis (addedEntries (collectBranchStats "main"
        (fun f => if f = "/w/.filediff/main/a.js" then ⟨100, 10, 5⟩ else ⟨50, 6, 3⟩)
        ["/w/.filediff/main/a.js", "/w/.filediff/main/b.js"]).files target) +
      sumBrotlis (changedEntries (collectBranchStats "main"
        (fun f => if f = "/w/.filediff/main/a.js" then ⟨100, 10, 5⟩ else ⟨50, 6, 3⟩)
        ["/w/.filediff/main/a.js", "/w/.filediff/main/b.js"]).files target) +
      sumBrotlis (unchangedEntries (collectBranchStats "main"
        (fun f => if f = "/w/.filediff/main/a.js" then ⟨100, 10, 5⟩ else ⟨50, 6, 3⟩)
        ["/w/.filediff/main/a.js", "/w/.filediff/main/b.js"]).files target) =
        (collectBranchStats "main"
        (fun f => if f = "/w/.filediff/main/a.js" then ⟨100, 10, 5⟩ else ⟨50, 6, 3⟩)
        ["/w/.filediff/main/a.js", "/w/.filediff/main/b.js"]).totalBrotli)) :=
  ⟨by decide,
    totals_sum_of_entries "main"
      (fun f => if f = "/w/.filediff/main/a.js" then ⟨100, 10, 5⟩ else ⟨50, 6, 3⟩)
      ["/w/.filediff/main/a.js", "/w/.filediff/main/b.js"] (by decide)⟩

/-! ### C4: the relative file key -/

theorem findSep_eq_none_of (sep : List Char) (hsep : sep ≠ []) :
    ∀ s : List Char, (∀ i, i < s.length → ¬ occursAt sep s i) → findSep sep s = none := by
  intro s
  induction s with
  | nil =>
    intro _
    simp [findSep, hsep]
  | cons c cs ih =>
    intro h
    have h0 : ¬ (sep.isPrefixOf (c :: cs) = true) := by
      have := h 0 (Nat.succ_pos _)
      simpa [occursAt] using this
    unfold findSep
    rw [if_neg h0, ih, Option.map_none']
    intro i hi
    have := h (i + 1) (Nat.succ_lt_succ hi)
    simpa [occursAt, List.drop_succ_cons] using this

theorem findSep_append_sep (sep rest : List Char) (hsep : sep ≠ []) :
    ∀ pre : List Char, (∀ i, i < pre.length → ¬ occursAt sep (pre ++ sep ++ rest) i) →
      findSep sep (pre ++ sep ++ rest) = some pre.length := by
  intro pre
  induction pre with
  | nil =>
    intro _
    rcases sep with _ | ⟨a, as⟩
    · exact absurd rfl hsep
    · show findSep (a :: as) (([] ++ (a :: as)) ++ rest) = some 0
      have : (([] ++ (a :: as)) ++ rest) = a :: (as ++ rest) := by simp
      rw [this]
      unfold findSep
      rw [if_pos]
      rw [List.isPrefixOf_iff_prefix]
      exact ⟨rest, by simp⟩
  | cons c p ih =>
    intro h
    have hcons : (c :: p) ++ sep ++ rest = c :: (p ++ sep ++ rest) := by simp
    rw [hcons]
    have h0 : ¬ (sep.isPrefixOf (c :: (p ++ sep ++ rest)) = true) := by
      have := h 0 (Nat.succ_pos _)
      simpa [occursAt, hcons] using this
    have hpre : ∀ i, i < p.length → ¬ occursAt sep (p ++ sep ++ rest) i := by
      intro i hi
      have := h (i + 1) (Nat.succ_lt_succ hi)
      simpa [occursAt, hcons, List.drop_succ_cons] using this
    unfold findSep
    rw [if_neg h0, ih hpre, Option.map_some']
    simp

theorem relKey_of (sep pre rel : List Char) (hsep : sep ≠ [])
    (h1 : ∀ i, i < pre.length → ¬ occursAt sep (pre ++ sep ++ rel) i)
    (h2 : ∀ i, i < rel.length → ¬ occursAt sep rel i) :
    relKey sep (pre ++ sep ++ rel) = some rel := by
  unfold relKey
  rw [findSep_append_sep sep rel hsep pre h1]
  dsimp only []
  have hlen : pre.length + sep.length = (pre ++ sep).length := (List.length_append pre sep).symm
  rw [hlen, List.drop_left, findSep_eq_none_of sep hsep rel h2]

/-- Counterexample to C4 as stated: the same logical file, at relative path
`main/x.js` under each branch workspace root (`/w/.filediff/main` and
`/w/.filediff/dev`), receives different keys in the two `BranchStats`: for
branch `main` the split on `"main/"` also fires on the occurrence of the
branch name inside the relative path, producing the key `""` instead of
`"main/x.js"`. -/
theorem relative_key_branch_name_counterexample :
    relativeKeyStr "main" "/w/.filediff/main/main/x.js" ≠
      relativeKeyStr "dev" "/w/.filediff/dev/main/x.js" ∧
    relativeKeyStr "main" "/w/.filediff/main/main/x.js" = "" ∧
    relativeKeyStr "dev" "/w/.filediff/dev/main/x.js" = "main/x.js" := by
  refine ⟨?_, by decide, by decide⟩
  decide

/-- C4 (amended). The key `getFileStats` stores is the segment of the
absolute path strictly between the first occurrence of `branch + "/"` and
its next occurrence (the whole remainder when there is no further
occurrence).  Provided `branch + "/"` occurs nowhere in the absolute path
before the workspace-root occurrence and nowhere inside the path relative to
the workspace root, this equals the relative path, and then the same logical
file yields the same key in both `BranchStats` regardless of the absolute
workspace locations and branch names. -/
theorem relative_key_between_occurrences (b1 b2 pre1 pre2 rel : List Char)
    (h11 : ∀ i, i < pre1.length →
      ¬ occursAt (b1 ++ ['/']) (pre1 ++ (b1 ++ ['/']) ++ rel) i)
    (h12 : ∀ i, i < rel.length → ¬ occursAt (b1 ++ ['/']) rel i)
    (h21 : ∀ i, i < pre2.length →
      ¬ occursAt (b2 ++ ['/']) (pre2 ++ (b2 ++ ['/']) ++ rel) i)
    (h22 : ∀ i, i < rel.length → ¬ occursAt (b2 ++ ['/']) rel i) :
    relativeKeyStr ⟨b1⟩ ⟨pre1 ++ (b1 ++ ['/']) ++ rel⟩ = ⟨rel⟩ ∧
    relativeKeyStr ⟨b2⟩ ⟨pre2 ++ (b2 ++ ['/']) ++ rel⟩ = ⟨rel⟩ ∧
    relativeKeyStr ⟨b1⟩ ⟨pre1 ++ (b1 ++ ['/']) ++ rel⟩ =
      relativeKeyStr ⟨b2⟩ ⟨pre2 ++ (b2 ++ ['/']) ++ rel⟩ := by
  have hs1 : (b1 ++ ['/'] : List Char) ≠ [] := by simp
  have hs2 : (b2 ++ ['/'] : List Char) ≠ [] := by simp
  have k1 : relativeKeyStr ⟨b1⟩ ⟨pre1 ++ (b1 ++ ['/']) ++ rel⟩ = ⟨rel⟩ := by
    unfold relativeKeyStr
    rw [show (String.mk (pre1 ++ (b1 ++ ['/']) ++ rel)).data = pre1 ++ (b1 ++ ['/']) ++ rel from rfl]
    rw [show (String.mk b1).data = b1 from rfl]
    rw [relKey_of (b1 ++ ['/']) pre1 rel hs1 h11 h12]
  have k2 : relativeKeyStr ⟨b2⟩ ⟨pre2 ++ (b2 ++ ['/']) ++ rel⟩ = ⟨rel⟩ := by
    unfold relativeKeyStr
    rw [show (String.mk (pre2 ++ (b2 ++ ['/']) ++ rel)).data = pre2 ++ (b2 ++ ['/']) ++ rel from rfl]
    rw [show (String.mk b2).data = b2 from rfl]
    rw [relKey_of (b2 ++ ['/']) pre2 rel hs2 h21 h22]
  exact ⟨k1, k2, k1.trans k2.symm⟩

/-- Witness for C4 (amended): two workspaces `/w/.filediff/main` and
`/w/.filediff/dev` holding the same logical file `src/x.js`. -/
theorem relative_key_between_occurrences_witness :
    (∀ i, i < ("/w/.filediff/".data).length →
      ¬ occursAt ("main".data ++ ['/'])
        ("/w/.filediff/".data ++ ("main".data ++ ['/']) ++ "src/x.js".data) i) ∧
    (∀ i, i < ("src/x.js".data).length →
      ¬ occursAt ("main".data ++ ['/']) "src/x.js".data i) ∧
    (∀ i, i < ("/w/.filediff/".data).length →
      ¬ occursAt ("dev".data ++ ['/'])
        ("/w/.filediff/".data ++ ("dev".data ++ ['/']) ++ "src/x.js".data) i) ∧
    (∀ i, i < ("src/x.js".data).length →
      ¬ occursAt ("dev".data ++ ['/']) "src/x.js".data i) ∧
    (relativeKeyStr ⟨"main".data⟩
        ⟨"/w/.filediff/".data ++ ("main".data ++ ['/']) ++ "src/x.js".data⟩ = ⟨"src/x.js".data⟩ ∧
     relativeKeyStr ⟨"dev".data⟩
        ⟨"/w/.filediff/".data ++ ("dev".data ++ ['/']) ++ "src/x.js".data⟩ = ⟨"src/x.js".data⟩ ∧
     relativeKeyStr ⟨"main".data⟩
        ⟨"/w/.filediff/".data ++ ("main".data ++ ['/']) ++ "src/x.js".data⟩ =
       relativeKeyStr ⟨"dev".data⟩
        ⟨"/w/.filediff/".data ++ ("dev".data ++ ['/']) ++ "src/x.js".data⟩) :=
  ⟨by decide, by decide, by decide, by decide,
    relative_key_between_occurrences "main".data "dev".data "/w/.filediff/".data
      "/w/.filediff/".data "src/x.js".data (by decide) (by decide) (by decide) (by decide)⟩

/-! ### C1: total, exclusive classification; unchanged files are invisible -/

theorem classify_tgt_none {pr target : List (String × FileMetric)} {p : String}
    (h : getFile target p = none) : classify pr target p = .added := by
  unfold classify
  rw [h]

theorem classify_some_none {pr target : List (String × FileMetric)} {p : String}
    {tm : FileMetric} (ht : getFile target p = some tm)
    (hp : getFile pr p = none) : classify pr target p = .removed := by
  unfold classify
  rw [ht, hp]

theorem classify_some_some {pr target : List (String × FileMetric)} {p : String}
    {tm pm : FileMetric} (ht : getFile target p = some tm)
    (hp : getFile pr p = some pm) :
    classify pr target p = if pm.size ≠ tm.size then .modified else .unchanged := by
  unfold classify
  rw [ht, hp]

theorem mem_unionPaths {pr target : List (String × FileMetric)} {p : String} :
    p ∈ unionPaths pr target ↔ p ∈ keysOf pr ∨ p ∈ keysOf target := by
  unfold unionPaths
  rw [List.mem_append, List.mem_filter]
  constructor
  · rintro (h | ⟨h, _⟩)
    · exact Or.inl h
    · exact Or.inr h
  · rintro (h | h)
    · exact Or.inl h
    · by_cases hpr : p ∈ keysOf pr
      · exact Or.inl hpr
      · exact Or.inr ⟨h, by simpa using hpr⟩

theorem getFile_some_iff_mem_keys {files : List (String × FileMetric)} {p : String} :
    (∃ m, getFile files p = some m) ↔ p ∈ keysOf files := by
  constructor
  · rintro ⟨m, hm⟩
    exact List.mem_map.mpr ⟨(p, m), getFile_mem_of_eq_some hm, rfl⟩
  · exact getFile_isSome_of_mem_keys

theorem classify_iffs (pr target : List (String × FileMetric)) (p : String)
    (hp : p ∈ unionPaths pr target) :
    (classify pr target p = .added ↔ p ∈ keysOf pr ∧ p ∉ keysOf target) ∧
    (classify pr target p = .removed ↔ p ∈ keysOf target ∧ p ∉ keysOf pr) ∧
    (classify pr target p = .modified ↔ ∃ pm tm, getFile pr p = some pm ∧
      getFile target p = some tm ∧ pm.size ≠ tm.size) ∧
    (classify pr target p = .unchanged ↔ ∃ pm tm, getFile pr p = some pm ∧
      getFile target p = some tm ∧ pm.size = tm.size) := by
  rcases ht : getFile target p with _ | tm
  · have hcl := @classify_tgt_none pr target p ht
    have hnt : p ∉ keysOf target := (getFile_eq_none_iff _ _).mp ht
    have hinpr : p ∈ keysOf pr := by
      rcases mem_unionPaths.mp hp with h | h
      · exact h
      · exact absurd h hnt
    rw [hcl]
    refine ⟨⟨fun _ => ⟨hinpr, hnt⟩, fun _ => rfl⟩, ?_, ?_, ?_⟩
    · constructor
      · intro h; cases h
      · rintro ⟨hin, _⟩; exact absurd hin hnt
    · constructor
      · intro h; cases h
      · rintro ⟨pm', tm', _, h2, _⟩
        cases h2
    · constructor
      · intro h; cases h
      · rintro ⟨pm', tm', _, h2, _⟩
        cases h2
  · have hmt : p ∈ keysOf target := getFile_some_iff_mem_keys.mp ⟨tm, ht⟩
    rcases hpf : getFile pr p with _ | pm
    · have hcl := classify_some_none ht hpf
      have hnp : p ∉ keysOf pr := (getFile_eq_none_iff _ _).mp hpf
      rw [hcl]
      refine ⟨?_, ⟨fun _ => ⟨hmt, hnp⟩, fun _ => rfl⟩, ?_, ?_⟩
      · constructor
        · intro h; cases h
        · rintro ⟨hin, _⟩; exact absurd hin hnp
      · constructor
        · intro h; cases h
        · rintro ⟨pm', tm', h1, _, _⟩
          cases h1
      · constructor
        · intro h; cases h
        · rintro ⟨pm', tm', h1, _, _⟩
          cases h1
    · have hmp : p ∈ keysOf pr := getFile_some_iff_mem_keys.mp ⟨pm, hpf⟩
      have hcl := classify_some_some ht hpf
      by_cases hs : pm.size = tm.size
      · rw [if_neg (by simpa using hs)] at hcl
        rw [hcl]
        refine ⟨?_, ?_, ?_, ?_⟩
        · constructor
          · intro h; cases h
          · rintro ⟨_, hno⟩; exact absurd hmt hno
        · constructor
          · intro h; cases h
          · rintro ⟨_, hno⟩; exact absurd hmp hno
        · constructor
          · intro h; cases h
          · rintro ⟨pm', tm', h1, h2, h3⟩
            cases h1
            cases h2
            exact absurd hs h3
        · exact ⟨fun _ => ⟨pm, tm, rfl, rfl, hs⟩, fun _ => rfl⟩
      · rw [if_pos hs] at hcl
        rw [hcl]
        refine ⟨?_, ?_, ?_, ?_⟩
        · constructor
          · intro h; cases h
          · rintro ⟨_, hno⟩; exact absurd hmt hno
        · constructor
          · intro h; cases h
          · rintro ⟨_, hno⟩; exact absurd hmp hno
        · exact ⟨fun _ => ⟨pm, tm, rfl, rfl, hs⟩, fun _ => rfl⟩
        · constructor
          · intro h; cases h
          · rintro ⟨pm', tm', h1, h2, h3⟩
            cases h1
            cases h2
            exact absurd h3 hs

theorem unchanged_not_in_rows (pr target : List (String × FileMetric))
    (hpr : (keysOf pr).Nodup) {p : String} {pm tm : FileMetric}
    (hpf : getFile pr p = some pm) (ht : getFile target p = some tm)
    (hs : pm.size = tm.size) :
    ∀ cp : String, ∀ r ∈ rowsWithKeys cp pr target, r.1 ≠ p := by
  intro cp r hr hrp
  rcases List.mem_append.mp hr with h | h
  · rcases List.mem_filterMap.mp h with ⟨e, he, hge⟩
    try dsimp only [] at hge
    rcases h1 : getFile target e.1 with _ | tm'
    · rw [h1] at hge
      cases hge
      rw [hrp] at h1
      rw [h1] at ht
      cases ht
    · rw [h1] at hge
      try dsimp only [] at hge
      by_cases hss : e.2.size ≠ tm'.size
      · rw [if_pos hss] at hge
        cases hge
        have hep : e.1 = p := hrp
        have hpe : getFile pr p = some e.2 := hep ▸ getFile_of_mem hpr he
        rw [hpf] at hpe
        cases hpe
        rw [hep] at h1
        rw [ht] at h1
        cases h1
        exact hss (by simpa using hs)
      · rw [if_neg hss] at hge
        cases hge
  · rcases List.mem_filterMap.mp h with ⟨e, he, hge⟩
    try dsimp only [] at hge
    by_cases h2 : getFile pr e.1 = none
    · rw [if_pos h2] at hge
      cases hge
      rw [hrp] at h2
      rw [h2] at hpf
      cases hpf
    · rw [if_neg h2] at hge
      cases hge

theorem countAdded_eq_union (pr target : List (String × FileMetric)) :
    countAdded pr target =
      ((unionPaths pr target).filter (fun p => classify pr target p == FileChange.added)).length := by
  have h2 : ((keysOf target).filter (fun k => decide (k ∉ keysOf pr))).filter
      (fun p => classify pr target p == FileChange.added) = [] := by
    rw [List.filter_eq_nil_iff]
    intro k hk
    have hkt : k ∈ keysOf target := (List.mem_filter.mp hk).1
    rcases getFile_isSome_of_mem_keys hkt with ⟨m, hm⟩
    rcases hpk : getFile pr k with _ | pm
    · rw [classify_some_none hm hpk]
      simp
    · rw [classify_some_some hm hpk]
      by_cases hss : pm.size ≠ m.size
      · rw [if_pos hss]
        simp
      · rw [if_neg hss]
        simp
  have h1 : (keysOf pr).filter (fun p => classify pr target p == FileChange.added) =
      (keysOf pr).filter (fun k => (getFile target k).isNone) := by
    apply List.filter_congr
    intro k _
    rcases htk : getFile target k with _ | tm
    · rw [classify_tgt_none htk]
      simp
    · rcases hpk : getFile pr k with _ | pm
      · rw [classify_some_none htk hpk]
        simp
      · rw [classify_some_some htk hpk]
        by_cases hss : pm.size ≠ tm.size
        · rw [if_pos hss]
          simp
        · rw [if_neg hss]
          simp
  show (pr.filter (fun e => (getFile target e.1).isNone)).length = _
  unfold unionPaths
  rw [List.filter_append, h2, List.append_nil, h1]
  show _ = ((pr.map (fun e => e.1)).filter (fun k => (getFile target k).isNone)).length
  rw [List.filter_map, List.length_map]
  rfl

theorem countChanged_eq_union (pr target : List (String × FileMetric))
    (hpr : (keysOf pr).Nodup) :
    countChanged pr target =
      ((unionPaths pr target).filter (fun p => classify pr target p == FileChange.modified)).length := by
  have h2 : ((keysOf target).filter (fun k => decide (k ∉ keysOf pr))).filter
      (fun p => classify pr target p == FileChange.modified) = [] := by
    rw [List.filter_eq_nil_iff]
    intro k hk
    have hkt : k ∈ keysOf target := (List.mem_filter.mp hk).1
    have hknp : k ∉ keysOf pr := by
      have := (List.mem_filter.mp hk).2
      simpa using this
    rcases getFile_isSome_of_mem_keys hkt with ⟨m, hm⟩
    rw [classify_some_none hm ((getFile_eq_none_iff pr k).mpr hknp)]
    simp
  have h1 : (keysOf pr).filter (fun p => classify pr target p == FileChange.modified) =
      (pr.filter (fun e =>
        match getFile target e.1 with
        | none => false
        | some tm => e.2.size != tm.size)).map (fun e => e.1) := by
    show (pr.map (fun e => e.1)).filter _ = _
    rw [List.filter_map]
    congr 1
    apply List.filter_congr
    intro e he
    have hpe : getFile pr e.1 = some e.2 := getFile_of_mem hpr he
    show (classify pr target e.1 == FileChange.modified) = _
    rcases htk : getFile target e.1 with _ | tm
    · rw [classify_tgt_none htk]
      simp
    · rw [classify_some_some htk hpe]
      by_cases hss : e.2.size ≠ tm.size
      · rw [if_pos hss]
        simp [bne_iff_ne.mpr hss]
      · rw [if_neg hss]
        have : (e.2.size != tm.size) = false := by
          simpa using hss
        simp [this]
  unfold unionPaths
  rw [List.filter_append, h2, List.append_nil, h1]
  unfold countChanged changedEntries
  rw [List.length_map]

theorem countRemoved_eq_union (pr target : List (String × FileMetric)) :
    countRemoved pr target =
      ((unionPaths pr target).filter (fun p => classify pr target p == FileChange.removed)).length := by
  have h1 : (keysOf pr).filter (fun p => classify pr target p == FileChange.removed) = [] := by
    rw [List.filter_eq_nil_iff]
    intro k hk
    rcases getFile_isSome_of_mem_keys hk with ⟨pm, hpm⟩
    rcases htk : getFile target k with _ | tm
    · rw [classify_tgt_none htk]
      simp
    · rw [classify_some_some htk hpm]
      by_cases hss : pm.size ≠ tm.size
      · rw [if_pos hss]
        simp
      · rw [if_neg hss]
        simp
  have h2 : ((keysOf target).filter (fun k => decide (k ∉ keysOf pr))).filter
      (fun p => classify pr target p == FileChange.removed) =
      (keysOf target).filter (fun k => (getFile pr k).isNone) := by
    rw [List.filter_filter]
    apply List.filter_congr
    intro k hk
    by_cases hknp : k ∈ keysOf pr
    · rcases getFile_isSome_of_mem_keys hknp with ⟨pm, hpm⟩
      simp [hknp, hpm]
    · have hnone : getFile pr k = none := (getFile_eq_none_iff pr k).mpr hknp
      rcases getFile_isSome_of_mem_keys hk with ⟨m, hm⟩
      rw [classify_some_none hm hnone]
      simp [hknp, hnone]
  unfold unionPaths
  rw [List.filter_append, h1, List.nil_append, h2]
  show (target.filter (fun e => (getFile pr e.1).isNone)).length = _
  show _ = ((target.map (fun e => e.1)).filter (fun k => (getFile pr k).isNone)).length
  rw [List.filter_map, List.length_map]
  rfl

/-- C1. For every pair of file maps (with the unique keys a JS object
guarantees) and every path in the union of their key sets, the
classification the code performs is total and exclusive: the single value of
`classify` is `added` iff the path is present in the subject (PR) map only,
`removed` iff present in the target map only, `modified` iff present in both
with differing size, and `unchanged` iff present in both with identical
size; an `unchanged` path contributes no row to the rendered per-file table
(for any displayed prefix), and the three rendered counts equal the number
of union paths classified `added`, `modified` and `removed` respectively —
so `unchanged` paths appear in neither the table nor the counts. -/
theorem classification_total_exclusive_unchanged_suppressed
    (pr target : List (String × FileMetric))
    (hpr : (keysOf pr).Nodup) (_htg : (keysOf target).Nodup) :
    (∀ p ∈ unionPaths pr target,
      (classify pr target p = .added ↔ p ∈ keysOf pr ∧ p ∉ keysOf target) ∧
      (classify pr target p = .removed ↔ p ∈ keysOf target ∧ p ∉ keysOf pr) ∧
      (classify pr target p = .modified ↔ ∃ pm tm, getFile pr p = some pm ∧
        getFile target p = some tm ∧ pm.size ≠ tm.size) ∧
      (classify pr target p = .unchanged ↔ ∃ pm tm, getFile pr p = some pm ∧
        getFile target p = some tm ∧ pm.size = tm.size)) ∧
    (∀ p ∈ unionPaths pr target, classify pr target p = .unchanged →
      ∀ cp : String, ∀ r ∈ rowsWithKeys cp pr target, r.1 ≠ p) ∧
    (countAdded pr target = ((unionPaths pr target).filter
        (fun p => classify pr target p == FileChange.added)).length ∧
     countChanged pr target = ((unionPaths pr target).filter
        (fun p => classify pr target p == FileChange.modified)).length ∧
     countRemoved pr target = ((unionPaths pr target).filter
        (fun p => classify pr target p == FileChange.removed)).length) := by
  refine ⟨fun p hp => classify_iffs pr target p hp, ?_,
    countAdded_eq_union pr target, countChanged_eq_union pr target hpr,
    countRemoved_eq_union pr target⟩
  intro p hp hcl
  rcases ((classify_iffs pr target p hp).2.2.2).mp hcl with ⟨pm, tm, hpf, ht, hs⟩
  exact unchanged_not_in_rows pr target hpr hpf ht hs

/-- Witness for C1 at a concrete pair exercising all four classes: `a.js`
modified, `n.js` added, `u.js` unchanged (same size, different gzip), `z.js`
removed. -/
theorem classification_total_exclusive_unchanged_suppressed_witness :
    ((keysOf [("a.js", (⟨150, 60, 50⟩ : FileMetric)), ("n.js", ⟨50, 20, 10⟩),
        ("u.js", ⟨30, 5, 4⟩)]).Nodup) ∧
    ((keysOf [("a.js", (⟨100, 40, 30⟩ : FileMetric)), ("u.js", ⟨30, 9, 8⟩),
        ("z.js", ⟨200, 120, 100⟩)]).Nodup) ∧
    ((∀ p ∈ unionPaths
        [("a.js", (⟨150, 60, 50⟩ : FileMetric)), ("n.js", ⟨50, 20, 10⟩), ("u.js", ⟨30, 5, 4⟩)]
        [("a.js", ⟨100, 40, 30⟩), ("u.js", ⟨30, 9, 8⟩), ("z.js", ⟨200, 120, 100⟩)],
      (classify
          [("a.js", ⟨150, 60, 50⟩), ("n.js", ⟨50, 20, 10⟩), ("u.js", ⟨30, 5, 4⟩)]
          [("a.js", ⟨100, 40, 30⟩), ("u.js", ⟨30, 9, 8⟩), ("z.js", ⟨200, 120, 100⟩)] p = .added ↔
        p ∈ keysOf [("a.js", ⟨150, 60, 50⟩), ("n.js", ⟨50, 20, 10⟩), ("u.js", ⟨30, 5, 4⟩)] ∧
        p ∉ keysOf [("a.js", ⟨100, 40, 30⟩), ("u.js", ⟨30, 9, 8⟩), ("z.js", ⟨200, 120, 100⟩)]) ∧
      (classify
          [("a.js", ⟨150, 60, 50⟩), ("n.js", ⟨50, 20, 10⟩), ("u.js", ⟨30, 5, 4⟩)]
          [("a.js", ⟨100, 40, 30⟩), ("u.js", ⟨30, 9, 8⟩), ("z.js", ⟨200, 120, 100⟩)] p = .removed ↔
        p ∈ keysOf [("a.js", ⟨100, 40, 30⟩), ("u.js", ⟨30, 9, 8⟩), ("z.js", ⟨200, 120, 100⟩)] ∧
        p ∉ keysOf [("a.js", ⟨150, 60, 50⟩), ("n.js", ⟨50, 20, 10⟩), ("u.js", ⟨30, 5, 4⟩)]) ∧
      (classify
          [("a.js", ⟨150, 60, 50⟩), ("n.js", ⟨50, 20, 10⟩), ("u.js", ⟨30, 5, 4⟩)]
          [("a.js", ⟨100, 40, 30⟩), ("u.js", ⟨30, 9, 8⟩), ("z.js", ⟨200, 120, 100⟩)] p = .modified ↔
        ∃ pm tm, getFile [("a.js", ⟨150, 60, 50⟩), ("n.js", ⟨50, 20, 10⟩), ("u.js", ⟨30, 5, 4⟩)] p = some pm ∧
          getFile [("a.js", ⟨100, 40, 30⟩), ("u.js", ⟨30, 9, 8⟩), ("z.js", ⟨200, 120, 100⟩)] p = some tm ∧
          pm.size ≠ tm.size) ∧
      (classify
          [("a.js", ⟨150, 60, 50⟩), ("n.js", ⟨50, 20, 10⟩), ("u.js", ⟨30, 5, 4⟩)]
          [("a.js", ⟨100, 40, 30⟩), ("u.js", ⟨30, 9, 8⟩), ("z.js", ⟨200, 120, 100⟩)] p = .unchanged ↔
        ∃ pm tm, getFile [("a.js", ⟨150, 60, 50⟩), ("n.js", ⟨50, 20, 10⟩), ("u.js", ⟨30, 5, 4⟩)] p = some pm ∧
          getFile [("a.js", ⟨100, 40, 30⟩), ("u.js", ⟨30, 9, 8⟩), ("z.js", ⟨200, 120, 100⟩)] p = some tm ∧
          pm.size = tm.size)) ∧
    (∀ p ∈ unionPaths
        [("a.js", (⟨150, 60, 50⟩ : FileMetric)), ("n.js", ⟨50, 20, 10⟩), ("u.js", ⟨30, 5, 4⟩)]
        [("a.js", ⟨100, 40, 30⟩), ("u.js", ⟨30, 9, 8⟩), ("z.js", ⟨200, 120, 100⟩)],
      classify
          [("a.js", ⟨150, 60, 50⟩), ("n.js", ⟨50, 20, 10⟩), ("u.js", ⟨30, 5, 4⟩)]
          [("a.js", ⟨100, 40, 30⟩), ("u.js", ⟨30, 9, 8⟩), ("z.js", ⟨200, 120, 100⟩)] p = .unchanged →
      ∀ cp : String, ∀ r ∈ rowsWithKeys cp
          [("a.js", ⟨150, 60, 50⟩), ("n.js", ⟨50, 20, 10⟩), ("u.js", ⟨30, 5, 4⟩)]
          [("a.js", ⟨100, 40, 30⟩), ("u.js", ⟨30, 9, 8⟩), ("z.js", ⟨200, 120, 100⟩)],
        r.1 ≠ p) ∧
    (countAdded
        [("a.js", (⟨150, 60, 50⟩ : FileMetric)), ("n.js", ⟨50, 20, 10⟩), ("u.js", ⟨30, 5, 4⟩)]
        [("a.js", ⟨100, 40, 30⟩), ("u.js", ⟨30, 9, 8⟩), ("z.js", ⟨200, 120, 100⟩)] =
      ((unionPaths
        [("a.js", ⟨150, 60, 50⟩), ("n.js", ⟨50, 20, 10⟩), ("u.js", ⟨30, 5, 4⟩)]
        [("a.js", ⟨100, 40, 30⟩), ("u.js", ⟨30, 9, 8⟩), ("z.js", ⟨200, 120, 100⟩)]).filter
          (fun p => classify
            [("a.js", ⟨150, 60, 50⟩), ("n.js", ⟨50, 20, 10⟩), ("u.js", ⟨30, 5, 4⟩)]
            [("a.js", ⟨100, 40, 30⟩), ("u.js", ⟨30, 9, 8⟩), ("z.js", ⟨200, 120, 100⟩)] p ==
              FileChange.added)).length ∧
     countChanged
        [("a.js", (⟨150, 60, 50⟩ : FileMetric)), ("n.js", ⟨50, 20, 10⟩), ("u.js", ⟨30, 5, 4⟩)]
        [("a.js", ⟨100, 40, 30⟩), ("u.js", ⟨30, 9, 8⟩), ("z.js", ⟨200, 120, 100⟩)] =
      ((unionPaths
        [("a.js", ⟨150, 60, 50⟩), ("n.js", ⟨50, 20, 10⟩), ("u.js", ⟨30, 5, 4⟩)]
        [("a.js", ⟨100, 40, 30⟩), ("u.js", ⟨30, 9, 8⟩), ("z.js", ⟨200, 120, 100⟩)]).filter
          (fun p => classify
            [("a.js", ⟨150, 60, 50⟩), ("n.js", ⟨50, 20, 10⟩), ("u.js", ⟨30, 5, 4⟩)]
            [("a.js", ⟨100, 40, 30⟩), ("u.js", ⟨30, 9, 8⟩), ("z.js", ⟨200, 120, 100⟩)] p ==
              FileChange.modified)).length ∧
     countRemoved
        [("a.js", (⟨150, 60, 50⟩ : FileMetric)), ("n.js", ⟨50, 20, 10⟩), ("u.js", ⟨30, 5, 4⟩)]
        [("a.js", ⟨100, 40, 30⟩), ("u.js", ⟨30, 9, 8⟩), ("z.js", ⟨200, 120, 100⟩)] =
      ((unionPaths
        [("a.js", ⟨150, 60, 50⟩), ("n.js", ⟨50, 20, 10⟩), ("u.js", ⟨30, 5, 4⟩)]
        [("a.js", ⟨100, 40, 30⟩), ("u.js", ⟨30, 9, 8⟩), ("z.js", ⟨200, 120, 100⟩)]).filter
          (fun p => classify
            [("a.js", ⟨150, 60, 50⟩), ("n.js", ⟨50, 20, 10⟩), ("u.js", ⟨30, 5, 4⟩)]
            [("a.js", ⟨100, 40, 30⟩), ("u.js", ⟨30, 9, 8⟩), ("z.js", ⟨200, 120, 100⟩)] p ==
              FileChange.removed)).length)) :=
  ⟨by decide, by decide,
    classification_total_exclusive_unchanged_suppressed
      [("a.js", ⟨150, 60, 50⟩), ("n.js", ⟨50, 20, 10⟩), ("u.js", ⟨30, 5, 4⟩)]
      [("a.js", ⟨100, 40, 30⟩), ("u.js", ⟨30, 9, 8⟩), ("z.js", ⟨200, 120, 100⟩)]
      (by decide) (by decide)⟩

/-! ### C3: the displayed common prefix -/

theorem lexLe_cons_self (a : Char) (as bs : List Char) :
    lexLe (a :: as) (a :: bs) = lexLe as bs := by
  conv_lhs => unfold lexLe
  rw [if_neg (lt_irrefl a), if_neg (lt_irrefl a)]

theorem lexLe_cons_of_lt {a b : Char} (h : a < b) (as bs : List Char) :
    lexLe (a :: as) (b :: bs) = true := by
  conv_lhs => unfold lexLe
  rw [if_pos h]

theorem lexLe_cons_of_gt {a b : Char} (h : b < a) (as bs : List Char) :
    lexLe (a :: as) (b :: bs) = false := by
  conv_lhs => unfold lexLe
  rw [if_neg (not_lt_of_lt h), if_pos h]

theorem lexLe_refl : ∀ a : List Char, lexLe a a = true
  | [] => rfl
  | c :: cs => by
    rw [lexLe_cons_self]
    exact lexLe_refl cs

theorem lexLe_total : ∀ a b : List Char, lexLe a b = true ∨ lexLe b a = true
  | [], _ => Or.inl rfl
  | _ :: _, [] => Or.inr rfl
  | a :: as, b :: bs => by
    rcases lt_trichotomy a b with h | h | h
    · exact Or.inl (lexLe_cons_of_lt h as bs)
    · subst h
      rw [lexLe_cons_self, lexLe_cons_self]
      exact lexLe_total as bs
    · exact Or.inr (lexLe_cons_of_lt h bs as)

theorem lexLe_trans : ∀ a b c : List Char,
    lexLe a b = true → lexLe b c = true → lexLe a c = true
  | [], _, _, _, _ => rfl
  | a :: as, [], _, h1, _ => nomatch h1
  | a :: as, b :: bs, [], _, h2 => nomatch h2
  | a :: as, b :: bs, c :: cs, h1, h2 => by
    rcases lt_trichotomy a b with hab | hab | hab
    · rcases lt_trichotomy b c with hbc | hbc | hbc
      · exact lexLe_cons_of_lt (lt_trans hab hbc) as cs
      · subst hbc
        exact lexLe_cons_of_lt hab as cs
      · rw [lexLe_cons_of_gt hbc] at h2
        cases h2
    · subst hab
      rw [lexLe_cons_self] at h1
      rcases lt_trichotomy a c with hac | hac | hac
      · exact lexLe_cons_of_lt hac as cs
      · subst hac
        rw [lexLe_cons_self] at h2 ⊢
        exact lexLe_trans as bs cs h1 h2
      · rw [lexLe_cons_of_gt hac] at h2
        cases h2
    · rw [lexLe_cons_of_gt hab] at h1
      cases h1

instance : IsTotal String strLe :=
  ⟨fun a b => lexLe_total a.data b.data⟩

instance : IsTrans String strLe :=
  ⟨fun a b c => lexLe_trans a.data b.data c.data⟩

theorem commonRun_between : ∀ a b c : List Char,
    lexLe a b = true → lexLe b c = true → commonRun a c <+: b
  | [], _, _, _, _ => by
    unfold commonRun
    exact List.nil_prefix
  | a :: as, [], _, h1, _ => nomatch h1
  | a :: as, b :: bs, [], _, h2 => nomatch h2
  | a :: as, b :: bs, c :: cs, h1, h2 => by
    unfold commonRun
    by_cases hac : a = c
    · rw [if_pos hac]
      subst hac
      rcases lt_trichotomy a b with hab | hab | hab
      · exfalso
        rw [lexLe_cons_of_gt hab] at h2
        cases h2
      · subst hab
        rw [lexLe_cons_self] at h1 h2
        rw [List.cons_prefix_cons]
        exact ⟨rfl, commonRun_between as bs cs h1 h2⟩
      · exfalso
        rw [lexLe_cons_of_gt hab] at h1
        cases h1
    · rw [if_neg hac]
      exact List.nil_prefix

theorem prefix_commonRun : ∀ p a c : List Char,
    p <+: a → p <+: c → p <+: commonRun a c
  | [], _, _, _, _ => List.nil_prefix
  | q :: ps, a, c, h1, h2 => by
    rcases a with _ | ⟨a0, as⟩
    · exact absurd (List.prefix_nil.mp h1) (by simp)
    · rcases c with _ | ⟨c0, cs⟩
      · exact absurd (List.prefix_nil.mp h2) (by simp)
      · rcases List.cons_prefix_cons.mp h1 with ⟨ha, hps1⟩
        rcases List.cons_prefix_cons.mp h2 with ⟨hc, hps2⟩
        unfold commonRun
        rw [if_pos (by rw [← ha, ← hc])]
        rw [List.cons_prefix_cons]
        exact ⟨ha, prefix_commonRun ps as cs hps1 hps2⟩

theorem headD_mem : ∀ l : List String, l ≠ [] → l.headD "" ∈ l := by
  intro l hl
  cases l with
  | nil => exact absurd rfl hl
  | cons h t => exact List.mem_cons_self _ _

theorem getLastD_mem : ∀ l : List String, l ≠ [] → l.getLastD "" ∈ l := by
  intro l
  induction l with
  | nil => intro h; exact absurd rfl h
  | cons h t ih =>
    intro _
    cases t with
    | nil => simp [List.getLastD]
    | cons y ts =>
      rw [List.getLastD_cons]
      have : (y :: ts).getLastD h = (y :: ts).getLastD "" := by
        rw [List.getLastD_cons, List.getLastD_cons]
      rw [this]
      exact List.mem_cons_of_mem h (ih (by simp))

theorem sorted_headD_le (l : List String) (hs : List.Sorted strLe l)
    (x : String) (hx : x ∈ l) : strLe (l.headD "") x := by
  cases l with
  | nil => cases hx
  | cons h t =>
    rcases List.mem_cons.mp hx with rfl | hxt
    · exact lexLe_refl _
    · exact List.rel_of_sorted_cons hs x hxt

theorem sorted_le_getLastD : ∀ l : List String, List.Sorted strLe l →
    ∀ x ∈ l, strLe x (l.getLastD "") := by
  intro l
  induction l with
  | nil => intro _ x hx; cases hx
  | cons h t ih =>
    intro hs x hx
    cases t with
    | nil =>
      rcases List.mem_cons.mp hx with rfl | hxt
      · exact lexLe_refl _
      · cases hxt
    | cons y ts =>
      rw [List.getLastD_cons]
      have hdef : (y :: ts).getLastD h = (y :: ts).getLastD "" := by
        rw [List.getLastD_cons, List.getLastD_cons]
      rw [hdef]
      rcases List.mem_cons.mp hx with rfl | hxt
      · exact List.rel_of_sorted_cons hs _ (getLastD_mem (y :: ts) (by simp))
      · exact ih hs.of_cons x hxt

theorem dropWhile_head_not (p : Char → Bool) :
    ∀ (l : List Char) (x : Char) (xs : List Char),
      l.dropWhile p = x :: xs → p x = false := by
  intro l
  induction l with
  | nil => intro x xs h; cases h
  | cons c cs ih =>
    intro x xs h
    by_cases hc : p c = true
    · rw [List.dropWhile_cons_of_pos hc] at h
      exact ih x xs h
    · rw [List.dropWhile_cons_of_neg hc] at h
      cases h
      simpa using hc

theorem suffix_dropWhile (p : Char → Bool) :
    ∀ (l1 l2 : List Char) (c : Char), l2 <:+ l1 → l2.head? = some c → p c = false →
      l2 <:+ l1.dropWhile p := by
  intro l1
  induction l1 with
  | nil =>
    intro l2 c hsuf hhead _
    rw [List.suffix_nil.mp hsuf] at hhead
    cases hhead
  | cons a l ih =>
    intro l2 c hsuf hhead hc
    rcases List.suffix_cons_iff.mp hsuf with rfl | hsuf'
    · have hca : c = a := by
        injection hhead with h
        exact h.symm
      rw [List.dropWhile_cons_of_neg (by rw [← hca]; simp [hc])]
    · by_cases hpa : p a = true
      · rw [List.dropWhile_cons_of_pos hpa]
        exact ih l2 c hsuf' hhead hc
      · rw [List.dropWhile_cons_of_neg hpa]
        exact hsuf'.trans (List.suffix_cons a l)

theorem trunc_isPre (s : String) : (truncToLastSlash s).data <+: s.data := by
  show (s.data.reverse.dropWhile (fun c => c ≠ '/')).reverse <+: s.data
  apply List.reverse_suffix.mp
  rw [List.reverse_reverse]
  exact List.dropWhile_suffix _

theorem trunc_ends_slash (s : String) :
    (truncToLastSlash s).data = [] ∨ (truncToLastSlash s).data.getLast? = some '/' := by
  cases hX : s.data.reverse.dropWhile (fun c => c ≠ '/') with
  | nil =>
    left
    show (s.data.reverse.dropWhile (fun c => c ≠ '/')).reverse = []
    rw [hX]
    rfl
  | cons x xs =>
    right
    have hx : (fun c : Char => decide (c ≠ '/')) x = false :=
      dropWhile_head_not _ _ x xs hX
    have hx' : x = '/' := by simpa using hx
    show ((s.data.reverse.dropWhile (fun c => c ≠ '/')).reverse).getLast? = some '/'
    rw [hX, List.getLast?_reverse]
    simp [hx']

theorem trunc_max (s : String) (q : List Char) (hq : q <+: s.data)
    (hsl : q.getLast? = some '/') : q <+: (truncToLastSlash s).data := by
  show q <+: (s.data.reverse.dropWhile (fun c => c ≠ '/')).reverse
  apply List.reverse_suffix.mp
  rw [List.reverse_reverse]
  apply suffix_dropWhile _ _ _ '/'
  · exact List.reverse_suffix.mpr hq
  · rw [List.head?_reverse]
    exact hsl
  · simp

/-- Counterexample to C3 as stated: for the singleton union set
`{"a/b.js"}` the code's `getCommonStringStart` takes the `length < 2`
branch and returns `""`, so the displayed common prefix is empty — not the
path's whole directory portion `"a/"` that the claim requires. -/
theorem singleton_common_start_counterexample :
    commonFilePathOf ["a/b.js"] = "" ∧ commonFilePathOf ["a/b.js"] ≠ "a/" :=
  ⟨by decide, by decide⟩

/-- C3 (amended). For every list of at least two union paths, the string the
renderer derives is exactly the longest common prefix of the whole set — it
is a prefix of every path (computed, as the code does, as the common leading
run of the lexicographic minimum and maximum of the sorted copy) and every
common prefix of all the paths is a prefix of it — and the displayed
`commonFilePath` is its truncation back to the last `'/'` (inclusive): a
prefix of it that is empty or ends with `'/'`, and maximal among its
prefixes ending with `'/'`.  For fewer than two paths the code returns `""`
instead (see the counterexample). -/
theorem common_start_is_longest_shared_start (paths : List String)
    (h : 2 ≤ paths.length) :
    (∀ s ∈ paths, (getCommonStringStart paths).data <+: s.data) ∧
    (∀ p : List Char, (∀ s ∈ paths, p <+: s.data) →
      p <+: (getCommonStringStart paths).data) ∧
    (commonFilePathOf paths).data <+: (getCommonStringStart paths).data ∧
    ((commonFilePathOf paths).data = [] ∨
      (commonFilePathOf paths).data.getLast? = some '/') ∧
    (∀ q : List Char, q <+: (getCommonStringStart paths).data →
      q.getLast? = some '/' → q <+: (commonFilePathOf paths).data) := by
  have hne : ¬ paths.length < 2 := not_lt.mpr h
  have hg : getCommonStringStart paths =
      ⟨commonRun ((paths.insertionSort strLe).headD "").data
        ((paths.insertionSort strLe).getLastD "").data⟩ := by
    unfold getCommonStringStart
    rw [if_neg hne]
  have hperm := List.perm_insertionSort strLe paths
  have hsorted := List.sorted_insertionSort strLe paths
  have hlen : (paths.insertionSort strLe).length = paths.length := hperm.length_eq
  have hnil : paths.insertionSort strLe ≠ [] := by
    intro h0
    rw [h0] at hlen
    simp at hlen
    omega
  refine ⟨?_, ?_, ?_, ?_, ?_⟩
  · intro s hs
    have hsl : s ∈ paths.insertionSort strLe := hperm.mem_iff.mpr hs
    have h1 : strLe ((paths.insertionSort strLe).headD "") s :=
      sorted_headD_le _ hsorted s hsl
    have h2 : strLe s ((paths.insertionSort strLe).getLastD "") :=
      sorted_le_getLastD _ hsorted s hsl
    rw [hg]
    exact commonRun_between _ _ _ h1 h2
  · intro p hp
    have hh : (paths.insertionSort strLe).headD "" ∈ paths :=
      hperm.mem_iff.mp (headD_mem _ hnil)
    have hl : (paths.insertionSort strLe).getLastD "" ∈ paths :=
      hperm.mem_iff.mp (getLastD_mem _ hnil)
    rw [hg]
    exact prefix_commonRun p _ _ (hp _ hh) (hp _ hl)
  · exact trunc_isPre _
  · exact trunc_ends_slash _
  · intro q hq hsl
    exact trunc_max _ q hq hsl

/-- Witness for C3 (amended) at the spec's own test vector
`["a/b/c.js", "a/b/d.js", "a/e.js"]`; at this input the displayed prefix
also concretely evaluates to `"a/"`. -/
theorem common_start_is_longest_shared_start_witness :
    (2 ≤ (["a/b/c.js", "a/b/d.js", "a/e.js"] : List String).length) ∧
    ((∀ s ∈ (["a/b/c.js", "a/b/d.js", "a/e.js"] : List String),
      (getCommonStringStart ["a/b/c.js", "a/b/d.js", "a/e.js"]).data <+: s.data) ∧
    (∀ p : List Char, (∀ s ∈ (["a/b/c.js", "a/b/d.js", "a/e.js"] : List String), p <+: s.data) →
      p <+: (getCommonStringStart ["a/b/c.js", "a/b/d.js", "a/e.js"]).data) ∧
    (commonFilePathOf ["a/b/c.js", "a/b/d.js", "a/e.js"]).data <+:
      (getCommonStringStart ["a/b/c.js", "a/b/d.js", "a/e.js"]).data ∧
    ((commonFilePathOf ["a/b/c.js", "a/b/d.js", "a/e.js"]).data = [] ∨
      (commonFilePathOf ["a/b/c.js", "a/b/d.js", "a/e.js"]).data.getLast? = some '/') ∧
    (∀ q : List Char, q <+: (getCommonStringStart ["a/b/c.js", "a/b/d.js", "a/e.js"]).data →
      q.getLast? = some '/' →
      q <+: (commonFilePathOf ["a/b/c.js", "a/b/d.js", "a/e.js"]).data)) ∧
    (commonFilePathOf ["a/b/c.js", "a/b/d.js", "a/e.js"] = "a/") :=
  ⟨by decide,
    common_start_is_longest_shared_start ["a/b/c.js", "a/b/d.js", "a/e.js"] (by decide),
    by decide⟩
